import Mathlib

/-!
Verification of the consensus-resolution pipeline of the "Stock Evaluation by
LLM Counsel" repository: rating parsing, consensus filling, tier
harmonization, debate majority resolution and score/verdict mapping.

The Python code is shallowly embedded: an analysis dict becomes an
association list of string key/value pairs, functions that can raise
(IndexError on `"".split()[0]`) return `Except Unit`, and the mutation of
the deep copy inside `fill_missing_with_consensus` /
`harmonize_and_check_debates` is additionally modelled on an explicit heap
(list of dicts addressed by position) to state the frame property that the
input dicts are never written.
-/

namespace StockCounsel

/-- Python `str.lower()` restricted to the ASCII mapping of `Char.toLower`
(all strings handled by the pipeline are ASCII). -/
def pyLower (s : String) : String :=
  String.mk (s.data.map Char.toLower)

/-- Python `str.capitalize()`: first character uppercased, the rest
lowercased (ASCII mapping). -/
def pyCapitalize (s : String) : String :=
  match s.data with
  | [] => ""
  | c :: cs => String.mk (c.toUpper :: cs.map Char.toLower)

/-- Does `needle` occur as a contiguous run inside `hay`?  Models Python's
`needle in hay` on strings. -/
def containsSubList (needle : List Char) : List Char → Bool
  | [] => needle.isEmpty
  | c :: rest => needle.isPrefixOf (c :: rest) || containsSubList needle rest

/-- Python `needle in hay` for strings. -/
def pyIn (needle hay : String) : Bool :=
  containsSubList needle.data hay.data

/-- Worker for `pySplit`: `cur` holds the reversed characters of the token
being accumulated. -/
def splitWs (cur : List Char) : List Char → List String
  | [] => if cur.isEmpty then [] else [String.mk cur.reverse]
  | c :: rest =>
    if c.isWhitespace then
      if cur.isEmpty then splitWs [] rest
      else String.mk cur.reverse :: splitWs [] rest
    else splitWs (c :: cur) rest

/-- Python `str.split()` with no argument: split on runs of whitespace,
discarding empty tokens. -/
def pySplit (s : String) : List String :=
  splitWs [] s.data

/-- The missing-data test used throughout `debate_logic.py`:
`not raw_rating or "not enough information" in raw_rating.lower()`. -/
def isMissing (s : String) : Bool :=
  s = "" || pyIn "not enough information" (pyLower s)

/-- `raw_rating.split()[0].capitalize()`; the indexing raises IndexError
(modelled as `.error ()`) when the split is empty, i.e. on whitespace-only
strings. -/
def capFirstWord (s : String) : Except Unit String :=
  match pySplit s with
  | [] => .error ()
  | w :: _ => .ok (pyCapitalize w)

/-- An analysis dict (`FinancialInformation`): string keys to string
values.  Keys are unique in the Python dicts; lookup takes the first
matching pair. -/
abbrev Analysis := List (String × String)

/-- Python `analysis.get(key, '')`. -/
def dictGet (a : Analysis) (k : String) : String :=
  match a with
  | [] => ""
  | (k1, v1) :: rest => if k1 = k then v1 else dictGet rest k

/-- Python `analysis[key] = v`: replace the first binding of `key`, or
append a new binding when absent. -/
def dictSet (a : Analysis) (k v : String) : Analysis :=
  match a with
  | [] => [(k, v)]
  | (k1, v1) :: rest => if k1 = k then (k, v) :: rest else (k1, v1) :: dictSet rest k v

/-- `l[i]`, defaulting to the empty dict out of range (the embedding only
ever reads in-range positions). -/
def readRef : List Analysis → Nat → Analysis
  | [], _ => []
  | a :: _, 0 => a
  | _ :: rest, n + 1 => readRef rest n

/-- `l[i] = a` on a list of dicts; no-op out of range (never reached by the
embedding). -/
def writeRef : List Analysis → Nat → Analysis → List Analysis
  | [], _, _ => []
  | _ :: rest, 0, a => a :: rest
  | b :: rest, n + 1, a => b :: writeRef rest n a

/-- Update position `i` of a list of dicts in place. -/
def modifyAt (l : List Analysis) (i : Nat) (f : Analysis → Analysis) : List Analysis :=
  writeRef l i (f (readRef l i))

/-- Value of key `k` of the `i`-th analysis of the list. -/
def getAt (l : List Analysis) (i : Nat) (k : String) : String :=
  dictGet (readRef l i) k

/-- `RATING_MAP` of `debate_logic.py`. -/
def RATING_MAP (w : String) : Option Nat :=
  if w = "excellent" then some 5
  else if w = "good" then some 4
  else if w = "neutral" then some 3
  else if w = "bad" then some 2
  else if w = "horrible" then some 1
  else none

/-- `METRICS` of `debate_logic.py` (the misspelling `quaterly_growth` is the
source's). -/
def METRICS : List String :=
  ["revenue", "net_income", "gross_margin", "operational_costs",
   "cash_flow", "quaterly_growth", "total_assets", "total_debt"]

/-- `parse_metric_rating` of `debate_logic.py`.  `.error ()` models the
IndexError raised by `rating_str.lower().split()[0]` when the string has no
token. -/
def parse_metric_rating (rating_str : String) : Except Unit (Option Nat) :=
  if isMissing rating_str then .ok none
  else
    match pySplit (pyLower rating_str) with
    | [] => .error ()
    | first_word :: _ => .ok (RATING_MAP first_word)

/-- Leftmost occurrence of a digit immediately followed by `/8`; models
`re.search(r'(\d)/8', s)` returning the captured digit. -/
def findDigitSlash8 : List Char → Option Nat
  | [] => none
  | c :: rest =>
    if c.isDigit && "/8".data.isPrefixOf rest then some (c.toNat - '0'.toNat)
    else findDigitSlash8 rest

/-- `parse_strength_score` of `debate_logic.py`; total, never raises. -/
def parse_strength_score (strength_str : String) : Option Nat :=
  if isMissing strength_str then none
  else findDigitSlash8 strength_str.data

/-- One insertion into a `collections.Counter` kept as a list of
(key, count) pairs in first-insertion order. -/
def insertTally : List (String × Nat) → String → List (String × Nat)
  | [], k => [(k, 1)]
  | (k1, n) :: rest, k =>
    if k1 = k then (k1, n + 1) :: rest else (k1, n) :: insertTally rest k

/-- `Counter(r.lower() for r in ratings if r)`: count the lowercased
non-empty entries, keys in first-insertion order. -/
def tally (ratings : List String) : List (String × Nat) :=
  ratings.foldl (fun acc r => if r = "" then acc else insertTally acc (pyLower r)) []

/-- Head of `counts.most_common()`: `most_common` is a stable sort of the
counter items by descending count, so its head is the first-inserted key of
maximal count — the first item not strictly beaten by a later one.  Only the
head of `most_common` is ever consulted by the source. -/
def maxByCount : List (String × Nat) → Option (String × Nat)
  | [] => none
  | p :: rest => some (rest.foldl (fun best q => if q.2 > best.2 then q else best) p)

/-- `_get_majority` of `debate_logic.py`. -/
def get_majority (ratings : List String) : Option String :=
  match maxByCount (tally ratings) with
  | some (k, _) => some (pyCapitalize k)
  | none => ratings.head?

/-- `_get_majority_rating` of `debate_orchestrator.py`: majority rating of
the final debate votes, or `COMPLEX` on a three-way tie. -/
def get_majority_rating (ratings : List String) : Option String :=
  match ratings with
  | [] => none
  | _ :: _ =>
    match maxByCount (tally ratings) with
    | none => none
    | some (k, n) => if n > 1 then some (pyCapitalize k) else some "COMPLEX"

/-- `_get_tier` of `debate_logic.py`. -/
def getTier (rating : String) : String :=
  let rl := pyLower rating
  if rl = "excellent" || rl = "good" then "positive"
  else if rl = "bad" || rl = "horrible" then "negative"
  else if rl = "neutral" then "neutral"
  else "unknown"

/-- The rating-collection loop shared by `fill_missing_with_consensus`
(lines 199-207) and `harmonize_and_check_debates` (lines 341-349): per
analyst, `None` when the metric is missing, otherwise the capitalized first
token of the raw rating (IndexError on a token-less non-missing string). -/
def collectRatings (analyses : List Analysis) (metric : String) : Except Unit (List (Option String)) :=
  match analyses with
  | [] => .ok []
  | a :: rest =>
    let raw := dictGet a metric
    if isMissing raw then
      (collectRatings rest metric).map (fun rs => none :: rs)
    else
      match capFirstWord raw with
      | .error e => .error e
      | .ok w => (collectRatings rest metric).map (fun rs => some w :: rs)

/-- Positions holding `None` (the `missing_indices` list). -/
def noneIndices : List (Option String) → List Nat
  | [] => []
  | none :: rest => 0 :: (noneIndices rest).map (· + 1)
  | some _ :: rest => (noneIndices rest).map (· + 1)

/-- The per-metric decision of `fill_missing_with_consensus`: `none` when
the metric is left alone, `some (idx, v)` when analyst `idx` is filled with
consensus value `v`.  Reads only the input `analyses`, exactly as the
source reads only `analyses` inside its loop. -/
def fillDecision (analyses : List Analysis) (metric : String) : Except Unit (Option (Nat × String)) :=
  match collectRatings analyses metric with
  | .error e => .error e
  | .ok ratings =>
    let missingIdx := noneIndices ratings
    if missingIdx.length ≠ 1 then .ok none
    else
      match ratings.filterMap id with
      | [] => .ok none
      | v :: rest =>
        if rest.all (· = v) then .ok (some (missingIdx.headD 0, v))
        else .ok none

/-- The two dict writes of lines 219-222 (`idx` is an index produced by
`noneIndices`, always in range). -/
def applyFill (filled : List Analysis) (idx : Nat) (metric v : String) : List Analysis :=
  modifyAt filled idx (fun a =>
    dictSet (dictSet a metric v) (metric ++ "_reason") ("Filled by consensus (" ++ v ++ ")"))

/-- One iteration of the `for metric in METRICS` loop of
`fill_missing_with_consensus`. -/
def fillEffect (analyses : List Analysis) (metric : String) (filled : List Analysis) : Except Unit (List Analysis) :=
  match fillDecision analyses metric with
  | .error e => .error e
  | .ok none => .ok filled
  | .ok (some (idx, v)) => .ok (applyFill filled idx metric v)

/-- The metric loop of `fill_missing_with_consensus`: reads come from
`analyses`, writes go to `filled`. -/
def fillLoop (analyses : List Analysis) : List String → List Analysis → Except Unit (List Analysis)
  | [], filled => .ok filled
  | m :: ms, filled =>
    match fillEffect analyses m filled with
    | .error e => .error e
    | .ok filled1 => fillLoop analyses ms filled1

/-- `fill_missing_with_consensus` of `debate_logic.py`; the starting
`filled` list is the deep copy of the input. -/
def fill_missing_with_consensus (analyses : List Analysis) : Except Unit (List Analysis) :=
  fillLoop analyses METRICS analyses

/-- One `harmonization_log` dict. -/
structure LogEntry where
  metric : String
  action : String
  reason : Option String := none
  ratings : Option (List (Option String)) := none
  result : Option String := none
  original : Option (List (Option String)) := none
deriving DecidableEq

/-- Return value of `harmonize_and_check_debates`. -/
structure HarmonizeResult where
  harmonized_analyses : List Analysis
  metrics_to_debate : List String
  harmonization_log : List LogEntry
deriving DecidableEq

/-- Lines 401-408 for one analyst: write the majority rating, then (reading
the reason from the updated dict, as the aliasing `analysis` variable does)
append the harmonization annotation unless the reason is empty or already
contains `Harmonized`. -/
def updateOne (a : Analysis) (metric majority : String) : Analysis :=
  let a1 := dictSet a metric majority
  let originalReason := dictGet a1 (metric ++ "_reason")
  if originalReason ≠ "" && !(pyIn "Harmonized" originalReason) then
    dictSet a1 (metric ++ "_reason") (originalReason ++ " [Harmonized to " ++ majority ++ "]")
  else a1

/-- The `for i, analysis in enumerate(harmonized)` write-back loop of the
harmonize branch; `ratings` and the analysis list always have equal length
at the call site. -/
def applyHarmonize (metric majority : String) : List (Option String) → List Analysis → List Analysis
  | _, [] => []
  | [], a :: rest => a :: applyHarmonize metric majority [] rest
  | none :: rs, a :: rest => a :: applyHarmonize metric majority rs rest
  | some _ :: rs, a :: rest => updateOne a metric majority :: applyHarmonize metric majority rs rest

/-- One iteration of the metric loop of `harmonize_and_check_debates`
(lines 337-415), threading the harmonized copy, the debate list and the
log. -/
def harmonizeStep (analyses : List Analysis) (metric : String) (st : HarmonizeResult) : Except Unit HarmonizeResult :=
  match collectRatings analyses metric with
  | .error e => .error e
  | .ok ratings =>
    let valid := ratings.filterMap id
    if valid.length < 2 then
      .ok ⟨st.harmonized_analyses, st.metrics_to_debate,
           st.harmonization_log ++ [{ metric := metric, action := "skipped",
                                      reason := some "insufficient_data", ratings := some ratings }]⟩
    else if (valid.map pyLower).dedup.length = 1 then
      .ok ⟨st.harmonized_analyses, st.metrics_to_debate,
           st.harmonization_log ++ [{ metric := metric, action := "already_aligned",
                                      ratings := some ratings,
                                      result := some (pyCapitalize (valid.headD "")) }]⟩
    else
      let tiers := valid.map getTier
      if tiers.contains "neutral" then
        .ok ⟨st.harmonized_analyses, st.metrics_to_debate ++ [metric],
             st.harmonization_log ++ [{ metric := metric, action := "debate",
                                        reason := some "neutral_present", ratings := some ratings }]⟩
      else if tiers.contains "positive" && tiers.contains "negative" then
        .ok ⟨st.harmonized_analyses, st.metrics_to_debate ++ [metric],
             st.harmonization_log ++ [{ metric := metric, action := "debate",
                                        reason := some "cross_tier_conflict", ratings := some ratings }]⟩
      else
        let majority := (get_majority valid).getD ""
        .ok ⟨applyHarmonize metric majority ratings st.harmonized_analyses,
             st.metrics_to_debate,
             st.harmonization_log ++ [{ metric := metric, action := "harmonized",
                                        original := some ratings, result := some majority }]⟩

/-- The metric loop of `harmonize_and_check_debates`. -/
def harmonizeLoop (analyses : List Analysis) : List String → HarmonizeResult → Except Unit HarmonizeResult
  | [], st => .ok st
  | m :: ms, st =>
    match harmonizeStep analyses m st with
    | .error e => .error e
    | .ok st1 => harmonizeLoop analyses ms st1

/-- `harmonize_and_check_debates` of `debate_logic.py`; `get_majority`
always returns `some` in the harmonize branch (the valid ratings are
non-empty strings), so its `.getD ""` default is never used. -/
def harmonize_and_check_debates (analyses : List Analysis) : Except Unit HarmonizeResult :=
  harmonizeLoop analyses METRICS ⟨analyses, [], []⟩

/-- `score_map` of `pdf_generator._calculate_score`. -/
def score_map : List (String × Int) :=
  [("excellent", 2), ("good", 1), ("neutral", 0), ("bad", -1), ("horrible", -2), ("complex", 0)]

/-- One iteration body of `_calculate_score`: a final rating may be Python
`None` (modelled as `Option.none`); `rating.lower() if rating else ""`,
then `score_map.get(rating_lower, 0)`. -/
def scoreOf (rating : Option String) : Int :=
  let rating_lower := match rating with
    | none => ""
    | some r => if r = "" then "" else pyLower r
  (score_map.lookup rating_lower).getD 0

/-- `_calculate_score` of `pdf_generator.py`, over the items of the final
ratings dict. -/
def calculate_score (ratings : List (String × Option String)) : Int :=
  ratings.foldl (fun total p => total + scoreOf p.2) 0

/-- `_get_verdict` of `pdf_generator.py`. -/
def get_verdict (score : Int) : String :=
  if score ≤ -11 then "Extremely Risky"
  else if score ≤ -4 then "Risky"
  else if score ≤ 3 then "Neutral"
  else if score ≤ 10 then "Safe"
  else "Extremely Safe"

/-- `VALID_RATINGS` of `debate_orchestrator.py`. -/
def VALID_RATINGS : List String :=
  ["excellent", "good", "neutral", "bad", "horrible"]

/-- `\w` of the pattern (ASCII word characters). -/
def isWordChar (c : Char) : Bool :=
  c.isAlphanum || c = '_'

/-- Case-insensitive literal match of `pat` at the front of `s`; returns
the remaining characters on success. -/
def ciDrop (pat : List Char) (s : List Char) : Option (List Char) :=
  match pat, s with
  | [], rest => some rest
  | _ :: _, [] => none
  | p :: ps, c :: cs => if c.toLower = p.toLower then ciDrop ps cs else none

/-- Try `<marker>\s+RATING:\s*(\w+)` (case-insensitive) at the start of
`s`, returning the captured word.  The character classes of adjacent parts
are disjoint, so greedy maximal munch is exactly the regex semantics. -/
def matchMarkerAt (marker : List Char) (s : List Char) : Option String :=
  match ciDrop marker s with
  | none => none
  | some s1 =>
    let s2 := s1.dropWhile Char.isWhitespace
    if s2.length = s1.length then none
    else
      match ciDrop "rating:".data s2 with
      | none => none
      | some s3 =>
        let s4 := s3.dropWhile Char.isWhitespace
        let w := s4.takeWhile isWordChar
        if w.isEmpty then none else some (String.mk w)

/-- `re.search`: try the pattern at every position, leftmost match wins. -/
def searchMarker (marker : List Char) (s : List Char) : Option String :=
  match matchMarkerAt marker s with
  | some w => some w
  | none =>
    match s with
    | [] => none
    | _ :: rest => searchMarker marker rest

/-- `_extract_final_rating` of `debate_orchestrator.py`: find
`FINAL RATING: <word>`, keep it only when it is one of the five canonical
rating words, capitalized. -/
def extract_final_rating (response : String) : Option String :=
  match searchMarker "final".data response.data with
  | none => none
  | some w =>
    let rating := pyLower w
    if VALID_RATINGS.contains rating then some (pyCapitalize rating) else none

/-- `_extract_updated_rating` of `debate_orchestrator.py`. -/
def extract_updated_rating (response : String) : Option String :=
  match searchMarker "updated".data response.data with
  | none => none
  | some w =>
    let rating := pyLower w
    if VALID_RATINGS.contains rating then some (pyCapitalize rating) else none

/-- The response string recorded for a participant by `_invoke_agent`: the
agent's reply on success, the error placeholder when the call raised. -/
def invokeResponse (outcome : Except String String) : String :=
  match outcome with
  | .ok content => content
  | .error msg => "[Error: " ++ msg ++ "]"

/-- The final-round vote collection of `_debate_single_metric` (lines
170-187): each pair is a participant's final-round response together with
its last known current rating; the extracted final rating is used when
extraction succeeds, the current rating otherwise. -/
def finalVotes : List (String × String) → List String
  | [] => []
  | (response, cur) :: rest =>
    (match extract_final_rating response with
     | some r => r
     | none => cur) :: finalVotes rest

/-- Heap model of the dict store: address `r` holds the dict `heap[r]`.
`copy.deepcopy` allocates fresh addresses at the end of the heap; every
write of the loops goes through the copy's addresses, which is what makes
the frame claim about the input dicts non-trivial. -/
abbrev Heap := List Analysis

/-- Dereference the addresses of an analysis list at read time. -/
def readAnalyses (heap : Heap) (refs : List Nat) : List Analysis :=
  refs.map (readRef heap)

/-- Heap version of `applyFill`: the two writes target the copy's address
for analyst `idx`. -/
def applyFillHeap (heap : Heap) (outRefs : List Nat) (idx : Nat) (metric v : String) : Heap :=
  let r := outRefs.getD idx 0
  writeRef heap r
    (dictSet (dictSet (readRef heap r) metric v) (metric ++ "_reason")
      ("Filled by consensus (" ++ v ++ ")"))

/-- Heap version of the `fill_missing_with_consensus` metric loop: reads
dereference `inRefs` at read time, writes go to `outRefs`. -/
def fillLoopHeap (inRefs outRefs : List Nat) : List String → Heap → Except Unit Heap
  | [], heap => .ok heap
  | m :: ms, heap =>
    match fillDecision (readAnalyses heap inRefs) m with
    | .error e => .error e
    | .ok none => fillLoopHeap inRefs outRefs ms heap
    | .ok (some (idx, v)) => fillLoopHeap inRefs outRefs ms (applyFillHeap heap outRefs idx m v)

/-- `fill_missing_with_consensus` on the heap: deep-copy the input dicts to
fresh addresses, run the loop, return the final heap and the copy's
addresses. -/
def fill_missing_heap (heap : Heap) (inRefs : List Nat) : Except Unit (Heap × List Nat) :=
  let outRefs := List.range' heap.length inRefs.length
  let heap1 := heap ++ readAnalyses heap inRefs
  (fillLoopHeap inRefs outRefs METRICS heap1).map (fun h2 => (h2, outRefs))

/-- Heap version of the harmonize write-back loop: analyst `i`'s dict at
address `outRefs[i]` is rewritten exactly when `ratings[i]` is non-missing. -/
def applyHarmonizeHeap (metric majority : String) : List (Option String) → List Nat → Heap → Heap
  | _, [], heap => heap
  | [], _ :: _, heap => heap
  | none :: rs, _ :: refs, heap => applyHarmonizeHeap metric majority rs refs heap
  | some _ :: rs, r :: refs, heap =>
    applyHarmonizeHeap metric majority rs refs (writeRef heap r (updateOne (readRef heap r) metric majority))

/-- Heap version of the `harmonize_and_check_debates` metric loop (the
debate list and log never touch the heap and are omitted here). -/
def harmonizeLoopHeap (inRefs outRefs : List Nat) : List String → Heap → Except Unit Heap
  | [], heap => .ok heap
  | m :: ms, heap =>
    match collectRatings (readAnalyses heap inRefs) m with
    | .error e => .error e
    | .ok ratings =>
      let valid := ratings.filterMap id
      if valid.length < 2 then harmonizeLoopHeap inRefs outRefs ms heap
      else if (valid.map pyLower).dedup.length = 1 then harmonizeLoopHeap inRefs outRefs ms heap
      else
        let tiers := valid.map getTier
        if tiers.contains "neutral" then harmonizeLoopHeap inRefs outRefs ms heap
        else if tiers.contains "positive" && tiers.contains "negative" then
          harmonizeLoopHeap inRefs outRefs ms heap
        else
          let majority := (get_majority valid).getD ""
          harmonizeLoopHeap inRefs outRefs ms (applyHarmonizeHeap m majority ratings outRefs heap)

/-- `harmonize_and_check_debates` on the heap. -/
def harmonize_heap (heap : Heap) (inRefs : List Nat) : Except Unit (Heap × List Nat) :=
  let outRefs := List.range' heap.length inRefs.length
  let heap1 := heap ++ readAnalyses heap inRefs
  (harmonizeLoopHeap inRefs outRefs METRICS heap1).map (fun h2 => (h2, outRefs))

/-- Spec-side per-rating contribution for the extended score, written from
the spec's words: +2/+1/0/−1/−2 for Excellent/Good/Neutral/Bad/Horrible
(case-insensitive), 0 for COMPLEX and for anything unrecognized or
missing.  Compared against `calculate_score` below. -/
def ratingValueSpec (r : Option String) : Int :=
  match r with
  | none => 0
  | some s =>
    if pyLower s = "excellent" then 2
    else if pyLower s = "good" then 1
    else if pyLower s = "neutral" then 0
    else if pyLower s = "bad" then -1
    else if pyLower s = "horrible" then -2
    else 0

/-- Key-disjointness of two metrics: neither metric name nor its companion
reason key collides with the other's. Holds for every pair of distinct
entries of `METRICS`. -/
abbrev keyDisj (m m1 : String) : Prop :=
  m ≠ m1 ∧ m ≠ m1 ++ "_reason" ∧ m ++ "_reason" ≠ m1 ∧ m ++ "_reason" ≠ m1 ++ "_reason"

/-- A dict value that the rating-collection loop can process without
raising: either missing or having a first token. -/
def valOk (v : String) : Prop :=
  isMissing v = true ∨ pySplit v ≠ []

/-- The two metric-owned keys of `out` agree with those of `base` at every
analyst position. -/
def mkeysEq (base out : List Analysis) (m : String) : Prop :=
  ∀ i, getAt out i m = getAt base i m ∧
       getAt out i (m ++ "_reason") = getAt base i (m ++ "_reason")

/-- The harmonization log of `out` contains `e` and no other entry for
metric `m`. -/
def logOnly (out : HarmonizeResult) (m : String) (e : LogEntry) : Prop :=
  e ∈ out.harmonization_log ∧ ∀ e1 ∈ out.harmonization_log, e1.metric = m → e1 = e

/-! ### Basic dictionary and list-store lemmas -/

theorem dictGet_dictSet (a : Analysis) (k v k1 : String) :
    dictGet (dictSet a k v) k1 = if k = k1 then v else dictGet a k1 := by
  induction a with
  | nil => simp only [dictSet, dictGet]
  | cons p rest ih =>
    obtain ⟨k2, v2⟩ := p
    by_cases h2 : k2 = k
    · subst h2
      simp only [dictSet, if_pos rfl, dictGet]
      by_cases h1 : k2 = k1
      · simp [h1]
      · simp [h1, dictGet]
    · simp only [dictSet, if_neg h2, dictGet]
      by_cases h1 : k2 = k1
      · subst h1
        have : k ≠ k2 := fun he => h2 he.symm
        simp [this]
      · simp [h1, ih]

theorem readRef_writeRef_ne (l : List Analysis) (i j : Nat) (a : Analysis) (h : i ≠ j) :
    readRef (writeRef l i a) j = readRef l j := by
  induction l generalizing i j with
  | nil => cases i <;> cases j <;> rfl
  | cons b rest ih =>
    cases i with
    | zero => cases j with
      | zero => exact absurd rfl h
      | succ j1 => rfl
    | succ i1 => cases j with
      | zero => rfl
      | succ j1 => exact ih i1 j1 (fun he => h (by rw [he]))

theorem readRef_writeRef_self (l : List Analysis) (i : Nat) (a : Analysis) (h : i < l.length) :
    readRef (writeRef l i a) i = a := by
  induction l generalizing i with
  | nil => simp at h
  | cons b rest ih =>
    cases i with
    | zero => rfl
    | succ i1 => exact ih i1 (by simpa using h)

theorem writeRef_length (l : List Analysis) (i : Nat) (a : Analysis) :
    (writeRef l i a).length = l.length := by
  induction l generalizing i with
  | nil => rfl
  | cons b rest ih => cases i <;> simp [writeRef, ih]

theorem modifyAt_length (l : List Analysis) (i : Nat) (f : Analysis → Analysis) :
    (modifyAt l i f).length = l.length :=
  writeRef_length l i _

theorem getAt_modifyAt_ne (l : List Analysis) (i j : Nat) (f : Analysis → Analysis)
    (h : i ≠ j) (k : String) : getAt (modifyAt l i f) j k = getAt l j k := by
  unfold getAt modifyAt
  rw [readRef_writeRef_ne l i j _ h]

theorem readRef_modifyAt_self (l : List Analysis) (i : Nat) (f : Analysis → Analysis)
    (h : i < l.length) : readRef (modifyAt l i f) i = f (readRef l i) :=
  readRef_writeRef_self l i _ h

/-- `m ++ "_reason"` is never `m` itself. -/
theorem append_reason_ne (m : String) : m ++ "_reason" ≠ m := by
  intro h
  have hlen := congrArg String.length h
  rw [String.length_append] at hlen
  have h7 : ("_reason" : String).length = 7 := rfl
  omega

/-! ### C5: the rating parsers on arbitrary strings -/

/-- C5: the claim says `parse_metric_rating` and `parse_strength_score`
never raise on any string, including whitespace-only ones.
`parse_strength_score` is indeed total, but `parse_metric_rating` raises
IndexError on a whitespace-only string: the missing-data guard passes it
through (it is non-empty and does not contain the marker phrase), and then
`rating_str.lower().split()[0]` indexes an empty list.  The code contradicts
its own docstring ("Returns None if rating is missing or invalid"). -/
theorem parse_metric_rating_raises_on_whitespace :
    parse_metric_rating "   " = .error () ∧
    parse_metric_rating "Excellent choice" = .ok (some 5) ∧
    parse_strength_score "   " = none ∧
    parse_strength_score "7/8" = some 7 := by
  refine ⟨rfl, rfl, rfl, rfl⟩

/-! ### C8 / C10: extended score and verdict -/

theorem scoreOf_eq_spec (r : Option String) : scoreOf r = ratingValueSpec r := by
  cases r with
  | none => rfl
  | some s =>
    by_cases h0 : s = ""
    · subst h0; rfl
    · simp only [scoreOf, ratingValueSpec, if_neg h0, score_map]
      by_cases h1 : pyLower s = "excellent"
      · simp [List.lookup, h1]
      · by_cases h2 : pyLower s = "good"
        · simp [List.lookup, h1, h2]
        · by_cases h3 : pyLower s = "neutral"
          · simp [List.lookup, h1, h2, h3]
          · by_cases h4 : pyLower s = "bad"
            · simp [List.lookup, h1, h2, h3, h4]
            · by_cases h5 : pyLower s = "horrible"
              · simp [List.lookup, h1, h2, h3, h4, h5]
              · by_cases h6 : pyLower s = "complex"
                · simp [List.lookup, beq_iff_eq, h1, h2, h3, h4, h5, h6]
                · simp only [List.lookup, beq_false_of_ne h1, beq_false_of_ne h2,
                        beq_false_of_ne h3, beq_false_of_ne h4, beq_false_of_ne h5,
                        beq_false_of_ne h6, Option.getD_none]
                  simp [h1, h2, h3, h4, h5]

theorem calculate_score_foldl (l : List (String × Option String)) (t : Int) :
    List.foldl (fun total p => total + scoreOf p.2) t l
      = t + (l.map (fun p => scoreOf p.2)).sum := by
  induction l generalizing t with
  | nil => simp
  | cons p rest ih => simp [List.foldl, ih, add_assoc]

theorem calculate_score_eq_sum (l : List (String × Option String)) :
    calculate_score l = (l.map (fun p => scoreOf p.2)).sum := by
  unfold calculate_score
  rw [calculate_score_foldl]
  simp

theorem ratingValueSpec_bounds (r : Option String) :
    -2 ≤ ratingValueSpec r ∧ ratingValueSpec r ≤ 2 := by
  cases r with
  | none => simp [ratingValueSpec]
  | some s =>
    simp only [ratingValueSpec]
    split_ifs <;> norm_num

theorem sum_ratingValueSpec_bounds (vals : List (Option String)) :
    -2 * (vals.length : Int) ≤ (vals.map ratingValueSpec).sum ∧
    (vals.map ratingValueSpec).sum ≤ 2 * (vals.length : Int) := by
  induction vals with
  | nil => simp
  | cons v rest ih =>
    obtain ⟨hl, hr⟩ := ih
    obtain ⟨hvl, hvr⟩ := ratingValueSpec_bounds v
    simp only [List.map_cons, List.sum_cons, List.length_cons]
    constructor
    · push_cast
      nlinarith
    · push_cast
      nlinarith

/-- C8: the extended score is the sum over the 8 metrics of
+2/+1/0/−1/−2 for Excellent/Good/Neutral/Bad/Horrible and 0 for COMPLEX
(hence lies in [−16, +16]), and the verdict label uses the inclusive
upper-bound thresholds ≤−11 / ≤−4 / ≤3 / ≤10, with score 3 mapping to
"Neutral". -/
theorem calculate_score_and_verdict_spec (vals : List (Option String)) (h8 : vals.length = 8) :
    calculate_score (METRICS.zip vals) = (vals.map ratingValueSpec).sum ∧
    -16 ≤ calculate_score (METRICS.zip vals) ∧
    calculate_score (METRICS.zip vals) ≤ 16 ∧
    (∀ s : Int, get_verdict s =
      if s ≤ -11 then "Extremely Risky"
      else if s ≤ -4 then "Risky"
      else if s ≤ 3 then "Neutral"
      else if s ≤ 10 then "Safe"
      else "Extremely Safe") ∧
    get_verdict 3 = "Neutral" := by
  have hmap : (METRICS.zip vals).map (fun p => scoreOf p.2) = vals.map ratingValueSpec := by
    have hzip : (METRICS.zip vals).map (fun p => scoreOf p.2)
        = (METRICS.zip vals).map (fun p => ratingValueSpec p.2) := by
      apply List.map_congr_left
      intro p _
      exact scoreOf_eq_spec p.2
    rw [hzip]
    have hsnd : (METRICS.zip vals).map Prod.snd = vals := by
      apply List.map_snd_zip
      simp [METRICS, h8]
    conv_rhs => rw [← hsnd, List.map_map]
    rfl
  have hsum : calculate_score (METRICS.zip vals) = (vals.map ratingValueSpec).sum := by
    rw [calculate_score_eq_sum, hmap]
  obtain ⟨hl, hr⟩ := sum_ratingValueSpec_bounds vals
  rw [h8] at hl hr
  refine ⟨hsum, ?_, ?_, ?_, rfl⟩
  · rw [hsum]; norm_num at hl ⊢; linarith
  · rw [hsum]; norm_num at hr ⊢; linarith
  · intro s; rfl

/-- C10: in `_calculate_score`, a final rating that is not
(case-insensitively) one of excellent/good/neutral/bad/horrible/complex —
including Python `None`, the empty string and arbitrary free text —
contributes exactly 0 to the total, so removing it leaves the extended
score unchanged. -/
theorem calculate_score_unrecognized (l1 l2 : List (String × Option String))
    (m : String) (r : Option String)
    (h : ∀ s, r = some s →
      pyLower s ∉ ["excellent", "good", "neutral", "bad", "horrible", "complex"]) :
    scoreOf r = 0 ∧
    calculate_score (l1 ++ (m, r) :: l2) = calculate_score (l1 ++ l2) := by
  have h0 : scoreOf r = 0 := by
    rw [scoreOf_eq_spec]
    cases r with
    | none => rfl
    | some s =>
      have hs := h s rfl
      simp only [List.mem_cons, List.mem_singleton] at hs
      push_neg at hs
      obtain ⟨h1, h2, h3, h4, h5, h6⟩ := hs
      simp [ratingValueSpec, h1, h2, h3, h4, h5]
  refine ⟨h0, ?_⟩
  rw [calculate_score_eq_sum, calculate_score_eq_sum]
  simp [h0]


/-! ### C2 / C7: debate majority resolution and final-round fallback -/

/-- C2: on three non-empty final debate ratings, `_get_majority_rating`
returns the case-insensitively most common rating (capitalized) whenever it
occurs more than once, and the sentinel COMPLEX when the three ratings are
pairwise case-insensitively distinct. -/
theorem get_majority_rating_spec (a b c : String) (ha : a ≠ "") (hb : b ≠ "") (hc : c ≠ "") :
    get_majority_rating [a, b, c] =
      some (if pyLower a = pyLower b ∨ pyLower a = pyLower c then pyCapitalize (pyLower a)
            else if pyLower b = pyLower c then pyCapitalize (pyLower b)
            else "COMPLEX") := by
  have htally : tally [a, b, c] =
      insertTally (insertTally [(pyLower a, 1)] (pyLower b)) (pyLower c) := by
    simp [tally, List.foldl, ha, hb, hc, insertTally]
  by_cases h1 : pyLower a = pyLower b
  · by_cases h2 : pyLower a = pyLower c
    · have h23 : pyLower b = pyLower c := h1.symm.trans h2
      have t1 : tally [a, b, c] = [(pyLower a, 3)] := by
        rw [htally]; simp [insertTally, h1, h2, h23]
      simp only [get_majority_rating, t1, maxByCount, List.foldl]
      simp [h1, h2]
    · have hcb : ¬pyLower b = pyLower c := fun h => h2 (h1.trans h)
      have t1 : tally [a, b, c] = [(pyLower a, 2), (pyLower c, 1)] := by
        rw [htally]; simp [insertTally, h1, h2, hcb]
      simp only [get_majority_rating, t1, maxByCount, List.foldl]
      simp [h1, h2]
  · by_cases h2 : pyLower a = pyLower c
    · have h1s : ¬pyLower b = pyLower a := fun h => h1 h.symm
      have hcb : ¬pyLower c = pyLower b := fun h => h1 (h2.trans h)
      have t1 : tally [a, b, c] = [(pyLower a, 2), (pyLower b, 1)] := by
        rw [htally]; simp [insertTally, h1, h1s, h2, hcb]
      simp only [get_majority_rating, t1, maxByCount, List.foldl]
      simp [h1, h2]
    · by_cases h3 : pyLower b = pyLower c
      · have h1s : ¬pyLower b = pyLower a := fun h => h1 h.symm
        have t1 : tally [a, b, c] = [(pyLower a, 1), (pyLower b, 2)] := by
          rw [htally]; simp [insertTally, h1, h1s, h2, h3]
        simp only [get_majority_rating, t1, maxByCount, List.foldl]
        simp [h1, h2, h3]
      · have h1s : ¬pyLower b = pyLower a := fun h => h1 h.symm
        have h2s : ¬pyLower c = pyLower a := fun h => h2 h.symm
        have h3s : ¬pyLower c = pyLower b := fun h => h3 h.symm
        have t1 : tally [a, b, c] = [(pyLower a, 1), (pyLower b, 1), (pyLower c, 1)] := by
          rw [htally]; simp [insertTally, h1, h1s, h2, h2s, h3, h3s]
        simp only [get_majority_rating, t1, maxByCount, List.foldl]
        simp [h1, h2, h3]

/-- Witness for C2 at the spec's two examples. -/
theorem get_majority_rating_spec_witness :
    ("Good" : String) ≠ "" ∧
    get_majority_rating ["Good", "Good", "Bad"] = some "Good" ∧
    get_majority_rating ["Good", "Bad", "Neutral"] = some "COMPLEX" := by
  refine ⟨by decide, ?_, ?_⟩
  · have h := get_majority_rating_spec "Good" "Good" "Bad" (by decide) (by decide) (by decide)
    rw [h]; rfl
  · have h := get_majority_rating_spec "Good" "Bad" "Neutral" (by decide) (by decide) (by decide)
    rw [h]; rfl

/-- C7: in the final debate round, every participant contributes exactly one
vote: the extracted `FINAL RATING` when extraction succeeds, otherwise the
participant's last known current rating — including when the participant's
call raised and the `[Error: ...]` placeholder was recorded as its
response. -/
theorem finalVotes_fallback (pairs : List (String × String)) :
    (finalVotes pairs).length = pairs.length ∧
    (∀ i resp cur, pairs.get? i = some (resp, cur) →
      (finalVotes pairs).get? i = some ((extract_final_rating resp).getD cur)) ∧
    (∀ i msg cur, pairs.get? i = some (invokeResponse (.error msg), cur) →
      extract_final_rating (invokeResponse (.error msg)) = none →
      (finalVotes pairs).get? i = some cur) := by
  have main : (finalVotes pairs).length = pairs.length ∧
      (∀ i resp cur, pairs.get? i = some (resp, cur) →
        (finalVotes pairs).get? i = some ((extract_final_rating resp).getD cur)) := by
    induction pairs with
    | nil => exact ⟨rfl, by intro i resp cur h; simp at h⟩
    | cons p rest ih =>
      obtain ⟨hl, hv⟩ := ih
      obtain ⟨resp0, cur0⟩ := p
      refine ⟨by simp [finalVotes, hl], ?_⟩
      intro i resp cur h
      cases i with
      | zero =>
        simp only [List.get?, Option.some.injEq, Prod.mk.injEq] at h
        obtain ⟨h1, h2⟩ := h
        show (finalVotes ((resp0, cur0) :: rest)).get? 0 = _
        simp only [finalVotes, List.get?, h1, h2]
        cases hx : extract_final_rating resp <;> simp [hx]
      | succ j =>
        have h2 : rest.get? j = some (resp, cur) := h
        have hj := hv j resp cur h2
        show (finalVotes ((resp0, cur0) :: rest)).get? (j + 1) = _
        simpa only [finalVotes, List.get?] using hj
  refine ⟨main.1, main.2, ?_⟩
  intro i msg cur h hx
  have := main.2 i (invokeResponse (.error msg)) cur h
  rw [hx] at this
  exact this

/-- Witness for C7: one successful extraction, one errored participant
falling back to its current rating, one response without a valid marker. -/
theorem finalVotes_fallback_witness :
    ([("blah FINAL RATING: bad then", "Good"), ("[Error: timeout]", "Neutral"),
      ("FINAL RATING: maybe-good", "Excellent")].get? 1 = some ("[Error: timeout]", "Neutral")) ∧
    extract_final_rating "[Error: timeout]" = none ∧
    finalVotes [("blah FINAL RATING: bad then", "Good"), ("[Error: timeout]", "Neutral"),
      ("FINAL RATING: maybe-good", "Excellent")] = ["Bad", "Neutral", "Excellent"] ∧
    (finalVotes [("blah FINAL RATING: bad then", "Good"), ("[Error: timeout]", "Neutral"),
      ("FINAL RATING: maybe-good", "Excellent")]).get? 1 = some "Neutral" := by
  refine ⟨rfl, rfl, rfl, ?_⟩
  have h := (finalVotes_fallback [("blah FINAL RATING: bad then", "Good"),
    ("[Error: timeout]", "Neutral"), ("FINAL RATING: maybe-good", "Excellent")]).2.2
    1 "timeout" "Neutral" rfl rfl
  exact h

/-- Witness for C8 at the spec's worked example: score 3, verdict "Neutral". -/
theorem calculate_score_and_verdict_spec_witness :
    ([some "Excellent", some "Good", some "Neutral", some "Bad", some "Horrible",
      some "Good", some "Excellent", some "Neutral"] : List (Option String)).length = 8 ∧
    calculate_score (METRICS.zip [some "Excellent", some "Good", some "Neutral", some "Bad",
      some "Horrible", some "Good", some "Excellent", some "Neutral"]) = 3 ∧
    -16 ≤ calculate_score (METRICS.zip [some "Excellent", some "Good", some "Neutral", some "Bad",
      some "Horrible", some "Good", some "Excellent", some "Neutral"]) ∧
    calculate_score (METRICS.zip [some "Excellent", some "Good", some "Neutral", some "Bad",
      some "Horrible", some "Good", some "Excellent", some "Neutral"]) ≤ 16 ∧
    get_verdict 3 = "Neutral" := by
  have h := calculate_score_and_verdict_spec [some "Excellent", some "Good", some "Neutral",
    some "Bad", some "Horrible", some "Good", some "Excellent", some "Neutral"] rfl
  exact ⟨rfl, by rfl, h.2.1, h.2.2.1, h.2.2.2.2⟩

/-- Witness for C10: the unrecognized rating "n/a" contributes 0 and its
removal leaves the score unchanged. -/
theorem calculate_score_unrecognized_witness :
    (∀ s, (some "n/a" : Option String) = some s →
      pyLower s ∉ ["excellent", "good", "neutral", "bad", "horrible", "complex"]) ∧
    scoreOf (some "n/a") = 0 ∧
    calculate_score [("revenue", some "Good"), ("total_debt", some "n/a"),
      ("cash_flow", some "Bad")]
      = calculate_score [("revenue", some "Good"), ("cash_flow", some "Bad")] := by
  have hside : ∀ s, (some "n/a" : Option String) = some s →
      pyLower s ∉ ["excellent", "good", "neutral", "bad", "horrible", "complex"] := by
    intro s hs
    injection hs with hs
    subst hs
    decide
  have h := calculate_score_unrecognized [("revenue", some "Good")] [("cash_flow", some "Bad")]
      "total_debt" (some "n/a") hside
  exact ⟨hside, h.1, h.2⟩

/-- C1 counterexample: all three analysts rate revenue Neutral (one in a
different case).  The metric's non-missing ratings include a Neutral, yet
the unanimity check fires first: the action is `already_aligned`, not
`debate`, and revenue is not flagged — refuting the claim that a Neutral
rating always forces a debate flag. -/
theorem harmonize_neutral_unanimous_counterexample :
    (harmonize_and_check_debates
        [[("revenue", "Neutral")], [("revenue", "Neutral")], [("revenue", "NEUTRAL")]]).map
      (fun r => (r.metrics_to_debate, r.harmonization_log.map (fun e => (e.metric, e.action))))
    = .ok ([], [("revenue", "already_aligned"), ("net_income", "skipped"),
                ("gross_margin", "skipped"), ("operational_costs", "skipped"),
                ("cash_flow", "skipped"), ("quaterly_growth", "skipped"),
                ("total_assets", "skipped"), ("total_debt", "skipped")]) := by
  rfl

/-- C3 counterexample: a same-tier metric is harmonized to the majority, but
the third analyst — whose rationale field is empty — receives no
harmonization annotation, refuting the claim that the annotation is appended
to each non-missing analyst's rationale (the only stated exception being an
already-annotated one). -/
theorem harmonize_annotation_empty_counterexample :
    (harmonize_and_check_debates
        [[("revenue", "Good"), ("revenue_reason", "strong sales")],
         [("revenue", "Excellent"), ("revenue_reason", "record growth")],
         [("revenue", "Good")]]).map
      (fun r => ((r.harmonization_log.map (fun e => (e.metric, e.action))).head?,
                 getAt r.harmonized_analyses 2 "revenue",
                 getAt r.harmonized_analyses 2 "revenue_reason",
                 getAt r.harmonized_analyses 0 "revenue_reason"))
    = .ok (some ("revenue", "harmonized"), "Good", "",
           "strong sales [Harmonized to Good]") := by
  rfl


/-! ### C6: the consensus filler -/

theorem writeRef_oob (l : List Analysis) (i : Nat) (a : Analysis) (h : l.length ≤ i) :
    writeRef l i a = l := by
  induction l generalizing i with
  | nil => rfl
  | cons b rest ih =>
    cases i with
    | zero => simp at h
    | succ j => simp only [writeRef]; rw [ih j (by simpa using h)]

theorem getAt_applyFill_ne (filled : List Analysis) (idx : Nat) (m v : String)
    (i : Nat) (h : idx ≠ i) (k : String) :
    getAt (applyFill filled idx m v) i k = getAt filled i k :=
  getAt_modifyAt_ne filled idx i _ h k

theorem getAt_applyFill_other (filled : List Analysis) (idx : Nat) (m v k : String)
    (h1 : k ≠ m) (h2 : k ≠ m ++ "_reason") (i : Nat) :
    getAt (applyFill filled idx m v) i k = getAt filled i k := by
  by_cases hij : idx = i
  · subst hij
    by_cases hlt : idx < filled.length
    · unfold applyFill getAt
      rw [readRef_modifyAt_self _ _ _ hlt]
      rw [dictGet_dictSet, if_neg (fun h => h2 h.symm),
          dictGet_dictSet, if_neg (fun h => h1 h.symm)]
    · unfold applyFill modifyAt
      rw [writeRef_oob _ _ _ (Nat.le_of_not_lt hlt)]
  · exact getAt_applyFill_ne filled idx m v i hij k

theorem getAt_applyFill_self (filled : List Analysis) (idx : Nat) (m v : String)
    (h : idx < filled.length) :
    getAt (applyFill filled idx m v) idx m = v ∧
    getAt (applyFill filled idx m v) idx (m ++ "_reason")
      = "Filled by consensus (" ++ v ++ ")" := by
  unfold applyFill getAt
  rw [readRef_modifyAt_self _ _ _ h]
  constructor
  · rw [dictGet_dictSet, if_neg (append_reason_ne m), dictGet_dictSet, if_pos rfl]
  · rw [dictGet_dictSet, if_pos rfl]

theorem applyFill_length (filled : List Analysis) (idx : Nat) (m v : String) :
    (applyFill filled idx m v).length = filled.length :=
  modifyAt_length filled idx _

theorem fillEffect_cases (analyses : List Analysis) (m : String)
    (filled out : List Analysis) (h : fillEffect analyses m filled = .ok out) :
    (fillDecision analyses m = .ok none ∧ out = filled) ∨
    (∃ idx v, fillDecision analyses m = .ok (some (idx, v)) ∧ out = applyFill filled idx m v) := by
  unfold fillEffect at h
  cases hd : fillDecision analyses m with
  | error e => rw [hd] at h; exact absurd h (by simp)
  | ok d =>
    rw [hd] at h
    cases d with
    | none =>
      left
      refine ⟨rfl, ?_⟩
      injection h with h
      exact h.symm
    | some p =>
      obtain ⟨idx, v⟩ := p
      right
      refine ⟨idx, v, rfl, ?_⟩
      injection h with h
      exact h.symm

theorem fillEffect_length (analyses : List Analysis) (m : String)
    (filled out : List Analysis) (h : fillEffect analyses m filled = .ok out) :
    out.length = filled.length := by
  rcases fillEffect_cases analyses m filled out h with ⟨_, rfl⟩ | ⟨idx, v, _, rfl⟩
  · rfl
  · exact applyFill_length filled idx m v

theorem fillEffect_frame (analyses : List Analysis) (m : String)
    (filled out : List Analysis) (h : fillEffect analyses m filled = .ok out)
    (k : String) (h1 : k ≠ m) (h2 : k ≠ m ++ "_reason") (i : Nat) :
    getAt out i k = getAt filled i k := by
  rcases fillEffect_cases analyses m filled out h with ⟨_, rfl⟩ | ⟨idx, v, _, rfl⟩
  · rfl
  · exact getAt_applyFill_other filled idx m v k h1 h2 i

theorem fillLoop_length (analyses : List Analysis) :
    ∀ (ms : List String) (filled out : List Analysis),
      fillLoop analyses ms filled = .ok out → out.length = filled.length := by
  intro ms
  induction ms with
  | nil =>
    intro filled out h
    injection h with h
    rw [h]
  | cons m1 rest ih =>
    intro filled out h
    unfold fillLoop at h
    cases he : fillEffect analyses m1 filled with
    | error e => rw [he] at h; exact absurd h (by simp)
    | ok filled1 =>
      rw [he] at h
      rw [ih filled1 out h, fillEffect_length analyses m1 filled filled1 he]

theorem fillLoop_frame (analyses : List Analysis) :
    ∀ (ms : List String) (filled out : List Analysis),
      fillLoop analyses ms filled = .ok out →
      ∀ k, (∀ m1 ∈ ms, k ≠ m1 ∧ k ≠ m1 ++ "_reason") →
      ∀ i, getAt out i k = getAt filled i k := by
  intro ms
  induction ms with
  | nil =>
    intro filled out h k _ i
    injection h with h
    rw [h]
  | cons m1 rest ih =>
    intro filled out h k hk i
    unfold fillLoop at h
    cases he : fillEffect analyses m1 filled with
    | error e => rw [he] at h; exact absurd h (by simp)
    | ok filled1 =>
      rw [he] at h
      have hk1 := hk m1 (List.mem_cons_self m1 rest)
      rw [ih filled1 out h k (fun m2 hm2 => hk m2 (List.mem_cons_of_mem m1 hm2)) i]
      exact fillEffect_frame analyses m1 filled filled1 he k hk1.1 hk1.2 i

theorem collectRatings_length (metric : String) :
    ∀ (analyses : List Analysis) (rs : List (Option String)),
      collectRatings analyses metric = .ok rs → rs.length = analyses.length := by
  intro analyses
  induction analyses with
  | nil =>
    intro rs h
    injection h with h
    rw [← h]
    rfl
  | cons a rest ih =>
    intro rs h
    unfold collectRatings at h
    by_cases hm : isMissing (dictGet a metric)
    · rw [if_pos hm] at h
      cases hc : collectRatings rest metric with
      | error e => rw [hc] at h; exact absurd h (by simp [Except.map])
      | ok rs1 =>
        rw [hc] at h
        simp only [Except.map] at h
        injection h with h
        rw [← h]
        simp [ih rs1 hc]
    · rw [if_neg hm] at h
      cases hw : capFirstWord (dictGet a metric) with
      | error e => rw [hw] at h; exact absurd h (by simp)
      | ok w =>
        rw [hw] at h
        cases hc : collectRatings rest metric with
        | error e => rw [hc] at h; exact absurd h (by simp [Except.map])
        | ok rs1 =>
          rw [hc] at h
          simp only [Except.map] at h
          injection h with h
          rw [← h]
          simp [ih rs1 hc]

theorem noneIndices_lt : ∀ (rs : List (Option String)) (i : Nat),
    i ∈ noneIndices rs → i < rs.length := by
  intro rs
  induction rs with
  | nil => intro i h; simp [noneIndices] at h
  | cons r rest ih =>
    intro i h
    cases r with
    | none =>
      simp only [noneIndices, List.mem_cons] at h
      rcases h with rfl | h
      · simp
      · simp only [List.mem_map] at h
        obtain ⟨j, hj, rfl⟩ := h
        have := ih j hj
        simp only [List.length_cons]
        omega
    | some w =>
      simp only [noneIndices, List.mem_map] at h
      obtain ⟨j, hj, rfl⟩ := h
      have := ih j hj
      simp only [List.length_cons]
      omega

theorem fillDecision_none_of_count (analyses : List Analysis) (m : String)
    (rs : List (Option String)) (hrs : collectRatings analyses m = .ok rs)
    (hc : (noneIndices rs).length ≠ 1) :
    fillDecision analyses m = .ok none := by
  unfold fillDecision
  rw [hrs]
  simp only [if_pos hc]

theorem fillDecision_none_of_empty (analyses : List Analysis) (m : String)
    (rs : List (Option String)) (hrs : collectRatings analyses m = .ok rs)
    (he : rs.filterMap id = []) :
    fillDecision analyses m = .ok none := by
  unfold fillDecision
  rw [hrs]
  by_cases hc : (noneIndices rs).length ≠ 1
  · simp only [if_pos hc]
  · simp only [if_neg hc, he]

theorem fillDecision_none_of_disagree (analyses : List Analysis) (m : String)
    (rs : List (Option String)) (hrs : collectRatings analyses m = .ok rs)
    (x y : String) (hx : x ∈ rs.filterMap id) (hy : y ∈ rs.filterMap id) (hxy : x ≠ y) :
    fillDecision analyses m = .ok none := by
  unfold fillDecision
  rw [hrs]
  by_cases hc : (noneIndices rs).length ≠ 1
  · simp only [if_pos hc]
  · simp only [if_neg hc]
    cases hfm : rs.filterMap id with
    | nil => exact absurd (hfm ▸ hx) (by simp)
    | cons v rest =>
      have hall : ¬(rest.all (fun r => r = v) = true) := by
        intro hall
        rw [List.all_eq_true] at hall
        rw [hfm] at hx hy
        have hxv : x = v := by
          rcases List.mem_cons.1 hx with rfl | hx1
          · rfl
          · simpa using hall x hx1
        have hyv : y = v := by
          rcases List.mem_cons.1 hy with rfl | hy1
          · rfl
          · simpa using hall y hy1
        exact hxy (hxv.trans hyv.symm)
      simp only [Bool.not_eq_true] at hall
      simp only [hall, Bool.false_eq_true, if_false]

theorem fillDecision_some (analyses : List Analysis) (m : String)
    (rs : List (Option String)) (hrs : collectRatings analyses m = .ok rs)
    (idx : Nat) (v : String) (rest : List String)
    (hidx : noneIndices rs = [idx]) (hfm : rs.filterMap id = v :: rest)
    (hall : ∀ x ∈ rest, x = v) :
    fillDecision analyses m = .ok (some (idx, v)) := by
  unfold fillDecision
  rw [hrs]
  have hc : ¬((noneIndices rs).length ≠ 1) := by rw [hidx]; simp
  simp only [if_neg hc, hfm]
  have hb : rest.all (fun r => r = v) = true := by
    rw [List.all_eq_true]
    intro x hx
    simpa using hall x hx
  simp only [hb, if_true]
  rw [hidx]
  rfl

theorem fillLoop_mkeys (analyses : List Analysis) (m : String) :
    ∀ (ms : List String) (filled out : List Analysis),
      fillLoop analyses ms filled = .ok out → m ∈ ms → ms.Nodup →
      (∀ m1 ∈ ms, m1 ≠ m → keyDisj m m1) →
      filled.length = analyses.length →
      (∀ i, getAt filled i m = getAt analyses i m ∧
            getAt filled i (m ++ "_reason") = getAt analyses i (m ++ "_reason")) →
      (fillDecision analyses m = .ok none →
        ∀ i, getAt out i m = getAt analyses i m ∧
             getAt out i (m ++ "_reason") = getAt analyses i (m ++ "_reason")) ∧
      (∀ idx v, fillDecision analyses m = .ok (some (idx, v)) →
        (idx < analyses.length →
           getAt out idx m = v ∧
           getAt out idx (m ++ "_reason") = "Filled by consensus (" ++ v ++ ")") ∧
        (∀ i, i ≠ idx → getAt out i m = getAt analyses i m ∧
              getAt out i (m ++ "_reason") = getAt analyses i (m ++ "_reason"))) := by
  intro ms
  induction ms with
  | nil => intro filled out _ hm; simp at hm
  | cons m1 rest ih =>
    intro filled out h hm hnd hdisj hlen hinv
    unfold fillLoop at h
    cases he : fillEffect analyses m1 filled with
    | error e => rw [he] at h; exact absurd h (by simp)
    | ok filled1 =>
      rw [he] at h
      have hnd1 := List.nodup_cons.1 hnd
      by_cases hm1 : m1 = m
      · subst hm1
        have hnotin : m1 ∉ rest := hnd1.1
        have hframe : ∀ i,
            getAt out i m1 = getAt filled1 i m1 ∧
            getAt out i (m1 ++ "_reason") = getAt filled1 i (m1 ++ "_reason") := by
          intro i
          constructor
          · refine fillLoop_frame analyses rest filled1 out h m1 ?_ i
            intro m2 hm2
            have hd := hdisj m2 (List.mem_cons_of_mem m1 hm2)
              (fun he2 => hnotin (he2 ▸ hm2))
            exact ⟨hd.1, hd.2.1⟩
          · refine fillLoop_frame analyses rest filled1 out h (m1 ++ "_reason") ?_ i
            intro m2 hm2
            have hd := hdisj m2 (List.mem_cons_of_mem m1 hm2)
              (fun he2 => hnotin (he2 ▸ hm2))
            exact ⟨hd.2.2.1, hd.2.2.2⟩
        rcases fillEffect_cases analyses m1 filled filled1 he with
          ⟨hdec, rfl⟩ | ⟨idx, v, hdec, rfl⟩
        · constructor
          · intro _ i
            rw [(hframe i).1, (hframe i).2]
            exact hinv i
          · intro idx v hdec2
            rw [hdec] at hdec2
            exact absurd hdec2 (by simp)
        · constructor
          · intro hdec2
            rw [hdec] at hdec2
            exact absurd hdec2 (by simp)
          · intro idx2 v2 hdec2
            rw [hdec] at hdec2
            injection hdec2 with hdec2
            injection hdec2 with hdec2
            have hidx2 : idx = idx2 := congrArg Prod.fst hdec2
            have hv2 : v = v2 := congrArg Prod.snd hdec2
            subst hidx2
            subst hv2
            constructor
            · intro hbound
              have hbound1 : idx < filled.length := by rw [hlen]; exact hbound
              have hself := getAt_applyFill_self filled idx m1 v hbound1
              refine ⟨?_, ?_⟩
              · rw [(hframe idx).1, hself.1]
              · rw [(hframe idx).2, hself.2]
            · intro i hi
              have hne := getAt_applyFill_ne filled idx m1 v i (fun hh => hi hh.symm)
              refine ⟨?_, ?_⟩
              · rw [(hframe i).1, hne m1, (hinv i).1]
              · rw [(hframe i).2, hne (m1 ++ "_reason"), (hinv i).2]
      · have hm2 : m ∈ rest := by
          rcases List.mem_cons.1 hm with rfl | hmr
          · exact absurd rfl hm1
          · exact hmr
        have hd1 : keyDisj m m1 := hdisj m1 (List.mem_cons_self m1 rest) hm1
        have hlen1 : filled1.length = analyses.length := by
          rw [fillEffect_length analyses m1 filled filled1 he, hlen]
        have hinv1 : ∀ i, getAt filled1 i m = getAt analyses i m ∧
            getAt filled1 i (m ++ "_reason") = getAt analyses i (m ++ "_reason") := by
          intro i
          constructor
          · rw [fillEffect_frame analyses m1 filled filled1 he m hd1.1 hd1.2.1 i]
            exact (hinv i).1
          · rw [fillEffect_frame analyses m1 filled filled1 he (m ++ "_reason")
                hd1.2.2.1 hd1.2.2.2 i]
            exact (hinv i).2
        exact ih filled1 out h hm2 hnd1.2
          (fun m2 hm2m => hdisj m2 (List.mem_cons_of_mem m1 hm2m)) hlen1 hinv1


/-- Distinct metrics never collide, neither directly nor through their
companion `_reason` keys. -/
theorem metrics_keyDisj : ∀ m ∈ METRICS, ∀ m1 ∈ METRICS, m1 ≠ m → keyDisj m m1 := by
  decide

theorem metrics_nodup : METRICS.Nodup := by decide

/-- C6: `fill_missing_with_consensus` fills a metric only when exactly one
analyst is missing it and all remaining analysts' capitalization-normalized
first tokens are textually identical; it never modifies the metric (or its
companion reason key) of any analyst when the missing count differs from
one or when the non-missing tokens disagree; and when it fills, it writes
the consensus value and the "Filled by consensus (...)" marker into the
missing analyst's dict only, leaving every other analyst unchanged. -/
theorem fill_missing_with_consensus_spec (analyses out : List Analysis)
    (m : String) (rs : List (Option String))
    (hok : fill_missing_with_consensus analyses = .ok out)
    (hm : m ∈ METRICS)
    (hrs : collectRatings analyses m = .ok rs) :
    ((noneIndices rs).length ≠ 1 →
      ∀ i, getAt out i m = getAt analyses i m ∧
           getAt out i (m ++ "_reason") = getAt analyses i (m ++ "_reason")) ∧
    ((∃ x ∈ rs.filterMap id, ∃ y ∈ rs.filterMap id, x ≠ y) →
      ∀ i, getAt out i m = getAt analyses i m ∧
           getAt out i (m ++ "_reason") = getAt analyses i (m ++ "_reason")) ∧
    (rs.filterMap id = [] →
      ∀ i, getAt out i m = getAt analyses i m ∧
           getAt out i (m ++ "_reason") = getAt analyses i (m ++ "_reason")) ∧
    (∀ idx v rest, noneIndices rs = [idx] → rs.filterMap id = v :: rest →
      (∀ x ∈ rest, x = v) →
      (getAt out idx m = v ∧
       getAt out idx (m ++ "_reason") = "Filled by consensus (" ++ v ++ ")") ∧
      (∀ i, i ≠ idx → getAt out i m = getAt analyses i m ∧
            getAt out i (m ++ "_reason") = getAt analyses i (m ++ "_reason"))) := by
  have hmk := fillLoop_mkeys analyses m METRICS analyses out hok hm metrics_nodup
    (fun m1 hm1 hne => metrics_keyDisj m hm m1 hm1 hne) rfl (fun i => ⟨rfl, rfl⟩)
  refine ⟨?_, ?_, ?_, ?_⟩
  · intro hc
    exact hmk.1 (fillDecision_none_of_count analyses m rs hrs hc)
  · rintro ⟨x, hx, y, hy, hxy⟩
    exact hmk.1 (fillDecision_none_of_disagree analyses m rs hrs x y hx hy hxy)
  · intro he
    exact hmk.1 (fillDecision_none_of_empty analyses m rs hrs he)
  · intro idx v rest hidx hfm hall
    have hdec := fillDecision_some analyses m rs hrs idx v rest hidx hfm hall
    have hbound : idx < analyses.length := by
      have h1 : idx ∈ noneIndices rs := by rw [hidx]; exact List.mem_singleton.2 rfl
      have h2 := noneIndices_lt rs idx h1
      rw [collectRatings_length m analyses rs hrs] at h2
      exact h2
    have h := hmk.2 idx v hdec
    exact ⟨h.1 hbound, h.2⟩

/-- Witness for C6: the middle analyst is missing revenue, the other two
agree on "Good"; the fill writes exactly the consensus value and marker. -/
theorem fill_missing_with_consensus_spec_witness :
    fill_missing_with_consensus
        [[("revenue", "Good")], [("revenue", "")], [("revenue", "Good")]]
      = .ok [[("revenue", "Good")],
             [("revenue", "Good"), ("revenue_reason", "Filled by consensus (Good)")],
             [("revenue", "Good")]] ∧
    getAt [[("revenue", "Good")],
           [("revenue", "Good"), ("revenue_reason", "Filled by consensus (Good)")],
           [("revenue", "Good")]] 1 "revenue" = "Good" ∧
    getAt [[("revenue", "Good")],
           [("revenue", "Good"), ("revenue_reason", "Filled by consensus (Good)")],
           [("revenue", "Good")]] 1 "revenue_reason" = "Filled by consensus (Good)" := by
  have hok : fill_missing_with_consensus
      [[("revenue", "Good")], [("revenue", "")], [("revenue", "Good")]]
      = .ok [[("revenue", "Good")],
             [("revenue", "Good"), ("revenue_reason", "Filled by consensus (Good)")],
             [("revenue", "Good")]] := by rfl
  have h := (fill_missing_with_consensus_spec
      [[("revenue", "Good")], [("revenue", "")], [("revenue", "Good")]]
      [[("revenue", "Good")],
       [("revenue", "Good"), ("revenue_reason", "Filled by consensus (Good)")],
       [("revenue", "Good")]]
      "revenue" [some "Good", none, some "Good"] hok (by decide) rfl).2.2.2
      1 "Good" ["Good"] rfl rfl (by intro x hx; simpa using hx)
  exact ⟨hok, h.1.1, h.1.2⟩


/-! ### Character and token lemmas (used by the harmonizer proofs) -/
theorem toNat_ofNat_valid (n : Nat) (h : n.isValidChar) : (Char.ofNat n).toNat = n := by
  unfold Char.ofNat
  rw [dif_pos h]
  simp [Char.ofNatAux, Char.toNat, UInt32.toNat]

theorem char_eq_iff_toNat (c d : Char) : c = d ↔ c.toNat = d.toNat := by
  constructor
  · intro h; rw [h]
  · intro h
    have h2 := congrArg Char.ofNat h
    rwa [Char.ofNat_toNat, Char.ofNat_toNat] at h2

theorem toLower_not_ws (c : Char) (h : c.isWhitespace = false) :
    (Char.toLower c).isWhitespace = false := by
  show (if c.toNat ≥ 65 ∧ c.toNat ≤ 90 then Char.ofNat (c.toNat + 32) else c).isWhitespace = false
  by_cases hc : c.toNat ≥ 65 ∧ c.toNat ≤ 90
  · rw [if_pos hc]
    have hval : (c.toNat + 32).isValidChar := by
      obtain ⟨h1, h2⟩ := hc
      left
      omega
    have ht := toNat_ofNat_valid (c.toNat + 32) hval
    obtain ⟨h1, h2⟩ := hc
    simp only [Char.isWhitespace]
    rw [Bool.or_eq_false_iff, Bool.or_eq_false_iff, Bool.or_eq_false_iff]
    refine ⟨⟨⟨?_, ?_⟩, ?_⟩, ?_⟩ <;>
    · rw [decide_eq_false_iff_not, char_eq_iff_toNat, ht]
      simp only [show Char.toNat ' ' = 32 from rfl, show Char.toNat '\t' = 9 from rfl,
        show Char.toNat '\r' = 13 from rfl, show Char.toNat '\n' = 10 from rfl]
      omega
  · rw [if_neg hc]
    exact h

theorem toUpper_not_ws (c : Char) (h : c.isWhitespace = false) :
    (Char.toUpper c).isWhitespace = false := by
  show (if c.toNat ≥ 97 ∧ c.toNat ≤ 122 then Char.ofNat (c.toNat - 32) else c).isWhitespace = false
  by_cases hc : c.toNat ≥ 97 ∧ c.toNat ≤ 122
  · rw [if_pos hc]
    have hval : (c.toNat - 32).isValidChar := by
      obtain ⟨h1, h2⟩ := hc
      left
      omega
    have ht := toNat_ofNat_valid (c.toNat - 32) hval
    obtain ⟨h1, h2⟩ := hc
    simp only [Char.isWhitespace]
    rw [Bool.or_eq_false_iff, Bool.or_eq_false_iff, Bool.or_eq_false_iff]
    refine ⟨⟨⟨?_, ?_⟩, ?_⟩, ?_⟩ <;>
    · rw [decide_eq_false_iff_not, char_eq_iff_toNat, ht]
      simp only [show Char.toNat ' ' = 32 from rfl, show Char.toNat '\t' = 9 from rfl,
        show Char.toNat '\r' = 13 from rfl, show Char.toNat '\n' = 10 from rfl]
      omega
  · rw [if_neg hc]
    exact h

theorem string_ne_empty_iff (s : String) : s ≠ "" ↔ s.data ≠ [] := by
  cases s with
  | mk d =>
    constructor
    · intro h hd
      apply h
      rw [show d = [] from hd]
    · intro h hd
      exact h (congrArg String.data hd)

theorem pyLower_ne_empty (s : String) (h : s ≠ "") : pyLower s ≠ "" := by
  rw [string_ne_empty_iff] at h ⊢
  unfold pyLower
  simpa using h

theorem pyLower_not_ws (s : String) (h : ∀ c ∈ s.data, c.isWhitespace = false) :
    ∀ c ∈ (pyLower s).data, c.isWhitespace = false := by
  intro c hc
  unfold pyLower at hc
  rw [show (String.mk (s.data.map Char.toLower)).data = s.data.map Char.toLower from rfl,
      List.mem_map] at hc
  obtain ⟨d, hd, rfl⟩ := hc
  exact toLower_not_ws d (h d hd)

theorem pyCapitalize_ne_empty (s : String) (h : s ≠ "") : pyCapitalize s ≠ "" := by
  rw [string_ne_empty_iff] at h
  unfold pyCapitalize
  cases hs : s.data with
  | nil => exact absurd hs h
  | cons c cs =>
    rw [string_ne_empty_iff]
    simp

theorem pyCapitalize_not_ws (s : String) (h : ∀ c ∈ s.data, c.isWhitespace = false) :
    ∀ c ∈ (pyCapitalize s).data, c.isWhitespace = false := by
  unfold pyCapitalize
  cases hs : s.data with
  | nil => intro c hc; simp at hc
  | cons c0 cs =>
    intro c hc
    rw [show (String.mk (c0.toUpper :: cs.map Char.toLower)).data
        = c0.toUpper :: cs.map Char.toLower from rfl, List.mem_cons] at hc
    rcases hc with rfl | hc
    · exact toUpper_not_ws c0 (h c0 (hs ▸ List.mem_cons_self c0 cs))
    · rw [List.mem_map] at hc
      obtain ⟨d, hd, rfl⟩ := hc
      exact toLower_not_ws d (h d (hs ▸ List.mem_cons_of_mem c0 hd))

theorem splitWs_nonWs : ∀ (l cur : List Char), (∀ c ∈ l, c.isWhitespace = false) →
    splitWs cur l = if (cur.reverse ++ l).isEmpty then [] else [String.mk (cur.reverse ++ l)] := by
  intro l
  induction l with
  | nil =>
    intro cur _
    simp only [splitWs, List.append_nil]
    by_cases hc : cur.isEmpty
    · rw [if_pos hc]
      have hcn : cur = [] := by cases cur <;> simp_all
      subst hcn
      simp
    · rw [if_neg hc]
      have hcn : cur ≠ [] := by cases cur <;> simp_all
      have hrn : cur.reverse ≠ [] := by simpa using hcn
      rw [if_neg (by simpa [List.isEmpty_iff] using hrn)]
  | cons c rest ih =>
    intro cur hws
    have hc : c.isWhitespace = false := hws c (List.mem_cons_self c rest)
    simp only [splitWs, hc]
    rw [if_neg (by simp)]
    rw [ih (c :: cur) (fun d hd => hws d (List.mem_cons_of_mem c hd))]
    simp [List.reverse_cons, List.append_assoc]

theorem pySplit_single (s : String) (hne : s ≠ "")
    (hws : ∀ c ∈ s.data, c.isWhitespace = false) : pySplit s = [s] := by
  unfold pySplit
  rw [splitWs_nonWs s.data [] hws]
  rw [string_ne_empty_iff] at hne
  rw [List.reverse_nil, List.nil_append, if_neg (by simpa [List.isEmpty_iff] using hne)]

theorem splitWs_tokens : ∀ (l cur : List Char), (∀ c ∈ cur, c.isWhitespace = false) →
    ∀ w ∈ splitWs cur l, w ≠ "" ∧ ∀ c ∈ w.data, c.isWhitespace = false := by
  intro l
  induction l with
  | nil =>
    intro cur hcur w hw
    simp only [splitWs] at hw
    by_cases hc : cur.isEmpty
    · rw [if_pos hc] at hw; simp at hw
    · rw [if_neg hc] at hw
      rw [List.mem_singleton] at hw
      subst hw
      have hcne : cur ≠ [] := by cases cur <;> simp_all
      constructor
      · rw [string_ne_empty_iff]
        simpa using hcne
      · intro c hc2
        rw [show (String.mk cur.reverse).data = cur.reverse from rfl] at hc2
        exact hcur c (by simpa using hc2)
  | cons c rest ih =>
    intro cur hcur w hw
    simp only [splitWs] at hw
    by_cases hwc : c.isWhitespace
    · rw [if_pos hwc] at hw
      by_cases hce : cur.isEmpty
      · rw [if_pos hce] at hw
        exact ih [] (by simp) w hw
      · rw [if_neg hce] at hw
        rw [List.mem_cons] at hw
        rcases hw with rfl | hw
        · have hcne : cur ≠ [] := by cases cur <;> simp_all
          constructor
          · rw [string_ne_empty_iff]
            simpa using hcne
          · intro d hd
            rw [show (String.mk cur.reverse).data = cur.reverse from rfl] at hd
            exact hcur d (by simpa using hd)
        · exact ih [] (by simp) w hw
    · rw [if_neg hwc] at hw
      refine ih (c :: cur) ?_ w hw
      intro d hd
      rcases List.mem_cons.1 hd with rfl | hd2
      · simpa using hwc
      · exact hcur d hd2

theorem pySplit_tokens (s : String) :
    ∀ w ∈ pySplit s, w ≠ "" ∧ ∀ c ∈ w.data, c.isWhitespace = false := by
  intro w hw
  exact splitWs_tokens s.data [] (by simp) w hw

theorem containsSubList_subset : ∀ (hay needle : List Char),
    containsSubList needle hay = true → ∀ c ∈ needle, c ∈ hay := by
  intro hay
  induction hay with
  | nil =>
    intro needle h c hc
    simp only [containsSubList, List.isEmpty_iff] at h
    subst h
    simp at hc
  | cons d rest ih =>
    intro needle h c hc
    simp only [containsSubList, Bool.or_eq_true] at h
    rcases h with h | h
    · rw [List.isPrefixOf_iff_prefix] at h
      exact h.subset hc
    · exact List.mem_cons_of_mem d (ih needle h c hc)

theorem isMissing_false_of_token (s : String) (hne : s ≠ "")
    (hws : ∀ c ∈ s.data, c.isWhitespace = false) : isMissing s = false := by
  unfold isMissing
  rw [Bool.or_eq_false_iff]
  constructor
  · simpa using hne
  · unfold pyIn
    by_cases h : containsSubList "not enough information".data (pyLower s).data = true
    · exfalso
      have hsp := containsSubList_subset (pyLower s).data "not enough information".data h
        ' ' (by decide)
      have hcw := pyLower_not_ws s hws ' ' hsp
      simp [Char.isWhitespace] at hcw
    · simpa using h

theorem insertTally_ne_nil (acc : List (String × Nat)) (k : String) :
    insertTally acc k ≠ [] := by
  cases acc with
  | nil => simp [insertTally]
  | cons p rest =>
    obtain ⟨k1, n⟩ := p
    unfold insertTally
    by_cases h : k1 = k <;> simp [h]

theorem insertTally_keys (acc : List (String × Nat)) (k : String) :
    ∀ p ∈ insertTally acc k, p.1 ∈ acc.map Prod.fst ∨ p.1 = k := by
  induction acc with
  | nil => intro p hp; simp [insertTally] at hp; simp [hp]
  | cons q rest ih =>
    obtain ⟨k1, n⟩ := q
    intro p hp
    unfold insertTally at hp
    by_cases h : k1 = k
    · rw [if_pos h] at hp
      rcases List.mem_cons.1 hp with rfl | hp2
      · simp
      · left
        simp only [List.map_cons, List.mem_cons]
        right
        exact List.mem_map_of_mem Prod.fst hp2
    · rw [if_neg h] at hp
      rcases List.mem_cons.1 hp with rfl | hp2
      · simp
      · rcases ih p hp2 with hk | hk
        · left
          simp only [List.map_cons, List.mem_cons]
          right
          exact hk
        · right
          exact hk

theorem tally_ne_nil (ratings : List String) (x : String) (hx : x ∈ ratings) (hxe : x ≠ "") :
    tally ratings ≠ [] := by
  unfold tally
  have main : ∀ (l : List String) (acc : List (String × Nat)),
      (acc ≠ [] ∨ ∃ y ∈ l, y ≠ "") →
      List.foldl (fun acc r => if r = "" then acc else insertTally acc (pyLower r)) acc l ≠ [] := by
    intro l
    induction l with
    | nil =>
      intro acc h
      rcases h with h | ⟨y, hy, _⟩
      · simpa using h
      · simp at hy
    | cons r rest ih =>
      intro acc h
      simp only [List.foldl]
      by_cases hr : r = ""
      · rw [if_pos hr]
        apply ih
        rcases h with h | ⟨y, hy, hye⟩
        · left; exact h
        · rcases List.mem_cons.1 hy with rfl | hy2
          · exact absurd hr hye
          · right; exact ⟨y, hy2, hye⟩
      · rw [if_neg hr]
        apply ih
        left
        exact insertTally_ne_nil acc (pyLower r)
  exact main ratings [] (Or.inr ⟨x, hx, hxe⟩)

theorem tally_keys (ratings : List String) :
    ∀ p ∈ tally ratings, ∃ x ∈ ratings, x ≠ "" ∧ p.1 = pyLower x := by
  unfold tally
  have main : ∀ (l : List String) (acc : List (String × Nat))
      (P : String → Prop),
      (∀ p ∈ acc, P p.1) → (∀ x ∈ l, x ≠ "" → P (pyLower x)) →
      ∀ p ∈ List.foldl (fun acc r => if r = "" then acc else insertTally acc (pyLower r)) acc l,
        P p.1 := by
    intro l
    induction l with
    | nil => intro acc P hacc _ p hp; exact hacc p hp
    | cons r rest ih =>
      intro acc P hacc hl p hp
      simp only [List.foldl] at hp
      by_cases hr : r = ""
      · rw [if_pos hr] at hp
        exact ih acc P hacc (fun x hx hxe => hl x (List.mem_cons_of_mem r hx) hxe) p hp
      · rw [if_neg hr] at hp
        refine ih (insertTally acc (pyLower r)) P ?_
          (fun x hx hxe => hl x (List.mem_cons_of_mem r hx) hxe) p hp
        intro q hq
        rcases insertTally_keys acc (pyLower r) q hq with hk | hk
        · rw [List.mem_map] at hk
          obtain ⟨q0, hq0, hq1⟩ := hk
          rw [← hq1]
          exact hacc q0 hq0
        · rw [hk]
          exact hl r (List.mem_cons_self r rest) hr
  intro p hp
  exact main ratings [] (fun k => ∃ x ∈ ratings, x ≠ "" ∧ k = pyLower x)
    (fun q hq => absurd hq (by simp))
    (fun x hx hxe => ⟨x, hx, hxe, rfl⟩) p hp

theorem maxByCount_mem (l : List (String × Nat)) (p : String × Nat)
    (h : maxByCount l = some p) : p ∈ l := by
  cases l with
  | nil => simp [maxByCount] at h
  | cons q rest =>
    simp only [maxByCount, Option.some.injEq] at h
    subst h
    have main : ∀ (rest : List (String × Nat)) (start : String × Nat),
        List.foldl (fun best q => if q.2 > best.2 then q else best) start rest ∈
          start :: rest := by
      intro rest
      induction rest with
      | nil => intro start; simp [List.foldl]
      | cons r rs ih =>
        intro start
        simp only [List.foldl]
        by_cases h : r.2 > start.2
        · rw [if_pos h]
          have := ih r
          rcases List.mem_cons.1 this with h2 | h2
          · rw [h2]; simp
          · simp [List.mem_cons_of_mem, h2]
        · rw [if_neg h]
          have := ih start
          rcases List.mem_cons.1 this with h2 | h2
          · rw [h2]; simp
          · simp [List.mem_cons_of_mem, h2]
    exact main rest q

theorem get_majority_shape (valid : List String)
    (hne : valid ≠ []) (hent : ∀ x ∈ valid, x ≠ "" ∧ ∀ c ∈ x.data, c.isWhitespace = false) :
    ∃ u, get_majority valid = some u ∧ u ≠ "" ∧ (∀ c ∈ u.data, c.isWhitespace = false) ∧
      pySplit u = [u] ∧ isMissing u = false := by
  obtain ⟨x0, hx0⟩ := List.exists_mem_of_ne_nil valid hne
  have htn : tally valid ≠ [] := tally_ne_nil valid x0 hx0 (hent x0 hx0).1
  cases hmax : maxByCount (tally valid) with
  | none =>
    exfalso
    cases ht : tally valid with
    | nil => exact htn ht
    | cons p rest => rw [ht] at hmax; simp [maxByCount] at hmax
  | some p =>
    obtain ⟨k, n⟩ := p
    have hp := maxByCount_mem _ _ hmax
    obtain ⟨x, hxin, hxe, hk⟩ := tally_keys valid (k, n) hp
    have hk2 : k = pyLower x := hk
    have hxw := (hent x hxin).2
    have hkne : k ≠ "" := by rw [hk2]; exact pyLower_ne_empty x hxe
    have hkw : ∀ c ∈ k.data, c.isWhitespace = false := by
      rw [hk2]; exact pyLower_not_ws x hxw
    refine ⟨pyCapitalize k, ?_, ?_, ?_, ?_, ?_⟩
    · unfold get_majority
      rw [hmax]
    · exact pyCapitalize_ne_empty k hkne
    · exact pyCapitalize_not_ws k hkw
    · exact pySplit_single _ (pyCapitalize_ne_empty k hkne) (pyCapitalize_not_ws k hkw)
    · exact isMissing_false_of_token _ (pyCapitalize_ne_empty k hkne) (pyCapitalize_not_ws k hkw)


/-! ### Harmonizer machinery (C1, C3, C4) -/
theorem dictGet_updateOne_other (a : Analysis) (m maj k : String)
    (h1 : k ≠ m) (h2 : k ≠ m ++ "_reason") :
    dictGet (updateOne a m maj) k = dictGet a k := by
  simp only [updateOne]
  split
  · rw [dictGet_dictSet, if_neg (fun h => h2 h.symm), dictGet_dictSet,
        if_neg (fun h => h1 h.symm)]
  · rw [dictGet_dictSet, if_neg (fun h => h1 h.symm)]

theorem dictGet_updateOne_metric (a : Analysis) (m maj : String) :
    dictGet (updateOne a m maj) m = maj := by
  simp only [updateOne]
  split
  · rw [dictGet_dictSet, if_neg (append_reason_ne m), dictGet_dictSet, if_pos rfl]
  · rw [dictGet_dictSet, if_pos rfl]

theorem dictGet_updateOne_reason (a : Analysis) (m maj : String) :
    dictGet (updateOne a m maj) (m ++ "_reason") =
      (if dictGet a (m ++ "_reason") ≠ "" ∧
          pyIn "Harmonized" (dictGet a (m ++ "_reason")) = false
       then dictGet a (m ++ "_reason") ++ " [Harmonized to " ++ maj ++ "]"
       else dictGet a (m ++ "_reason")) := by
  have hr : dictGet (dictSet a m maj) (m ++ "_reason") = dictGet a (m ++ "_reason") := by
    rw [dictGet_dictSet, if_neg (fun h => append_reason_ne m h.symm)]
  have hiff : ((dictGet a (m ++ "_reason") ≠ "" &&
        !(pyIn "Harmonized" (dictGet a (m ++ "_reason")))) = true)
      ↔ (dictGet a (m ++ "_reason") ≠ "" ∧
         pyIn "Harmonized" (dictGet a (m ++ "_reason")) = false) := by
    simp [Bool.and_eq_true, decide_eq_true_eq, Bool.not_eq_true']
  simp only [updateOne, hr]
  by_cases hc : dictGet a (m ++ "_reason") ≠ "" ∧
      pyIn "Harmonized" (dictGet a (m ++ "_reason")) = false
  · rw [if_pos (hiff.2 hc), if_pos hc, dictGet_dictSet, if_pos rfl]
  · rw [if_neg (fun hb => hc (hiff.1 hb)), if_neg hc, hr]

theorem applyHarmonize_length (m maj : String) :
    ∀ (rs : List (Option String)) (l : List Analysis),
      (applyHarmonize m maj rs l).length = l.length := by
  intro rs l
  induction l generalizing rs with
  | nil =>
    cases rs with
    | nil => rfl
    | cons r rs1 => cases r <;> simp [applyHarmonize]
  | cons a rest ih =>
    cases rs with
    | nil => simp only [applyHarmonize, List.length_cons, ih]
    | cons r rs1 => cases r <;> simp only [applyHarmonize, List.length_cons, ih]

theorem readRef_applyHarmonize_miss (m maj : String) :
    ∀ (l : List Analysis) (rs : List (Option String)) (i : Nat),
      (rs.get? i = some none ∨ rs.get? i = none) →
      readRef (applyHarmonize m maj rs l) i = readRef l i := by
  intro l
  induction l with
  | nil =>
    intro rs i _
    cases rs with
    | nil => rfl
    | cons r rs1 => cases r <;> simp [applyHarmonize]
  | cons a rest ih =>
    intro rs i h
    cases rs with
    | nil =>
      cases i with
      | zero => rfl
      | succ j =>
        show readRef (applyHarmonize m maj [] rest) j = readRef rest j
        exact ih [] j (Or.inr rfl)
    | cons r rs1 =>
      cases r with
      | none =>
        cases i with
        | zero => rfl
        | succ j =>
          show readRef (applyHarmonize m maj rs1 rest) j = readRef rest j
          apply ih rs1 j
          simpa using h
      | some w =>
        cases i with
        | zero => rcases h with h | h <;> simp at h
        | succ j =>
          show readRef (applyHarmonize m maj rs1 rest) j = readRef rest j
          apply ih rs1 j
          simpa using h

theorem readRef_applyHarmonize_hit (m maj : String) :
    ∀ (l : List Analysis) (rs : List (Option String)) (i : Nat) (w : String),
      rs.get? i = some (some w) → i < l.length →
      readRef (applyHarmonize m maj rs l) i = updateOne (readRef l i) m maj := by
  intro l
  induction l with
  | nil => intro rs i w _ hl; simp at hl
  | cons a rest ih =>
    intro rs i w h hl
    cases rs with
    | nil => simp at h
    | cons r rs1 =>
      cases r with
      | none =>
        cases i with
        | zero => simp at h
        | succ j =>
          show readRef (applyHarmonize m maj rs1 rest) j = _
          exact ih rs1 j w (by simpa using h) (by simpa using hl)
      | some w0 =>
        cases i with
        | zero => rfl
        | succ j =>
          show readRef (applyHarmonize m maj rs1 rest) j = _
          exact ih rs1 j w (by simpa using h) (by simpa using hl)

theorem harmonizeStep_cases (analyses : List Analysis) (metric : String)
    (st st1 : HarmonizeResult) (h : harmonizeStep analyses metric st = .ok st1) :
    ∃ rs, collectRatings analyses metric = .ok rs ∧
      (((rs.filterMap id).length < 2 ∧
        st1 = ⟨st.harmonized_analyses, st.metrics_to_debate,
          st.harmonization_log ++
            [⟨metric, "skipped", some "insufficient_data", some rs, none, none⟩]⟩) ∨
       (¬(rs.filterMap id).length < 2 ∧
        ((rs.filterMap id).map pyLower).dedup.length = 1 ∧
        st1 = ⟨st.harmonized_analyses, st.metrics_to_debate,
          st.harmonization_log ++
            [⟨metric, "already_aligned", none, some rs,
              some (pyCapitalize ((rs.filterMap id).headD "")), none⟩]⟩) ∨
       (¬(rs.filterMap id).length < 2 ∧
        ¬((rs.filterMap id).map pyLower).dedup.length = 1 ∧
        ((rs.filterMap id).map getTier).contains "neutral" = true ∧
        st1 = ⟨st.harmonized_analyses, st.metrics_to_debate ++ [metric],
          st.harmonization_log ++
            [⟨metric, "debate", some "neutral_present", some rs, none, none⟩]⟩) ∨
       (¬(rs.filterMap id).length < 2 ∧
        ¬((rs.filterMap id).map pyLower).dedup.length = 1 ∧
        ((rs.filterMap id).map getTier).contains "neutral" = false ∧
        (((rs.filterMap id).map getTier).contains "positive" &&
          ((rs.filterMap id).map getTier).contains "negative") = true ∧
        st1 = ⟨st.harmonized_analyses, st.metrics_to_debate ++ [metric],
          st.harmonization_log ++
            [⟨metric, "debate", some "cross_tier_conflict", some rs, none, none⟩]⟩) ∨
       (¬(rs.filterMap id).length < 2 ∧
        ¬((rs.filterMap id).map pyLower).dedup.length = 1 ∧
        ((rs.filterMap id).map getTier).contains "neutral" = false ∧
        (((rs.filterMap id).map getTier).contains "positive" &&
          ((rs.filterMap id).map getTier).contains "negative") = false ∧
        st1 = ⟨applyHarmonize metric ((get_majority (rs.filterMap id)).getD "") rs
            st.harmonized_analyses,
          st.metrics_to_debate,
          st.harmonization_log ++
            [⟨metric, "harmonized", none, none,
              some ((get_majority (rs.filterMap id)).getD ""), some rs⟩]⟩)) := by
  unfold harmonizeStep at h
  cases hc : collectRatings analyses metric with
  | error e => rw [hc] at h; exact absurd h (by simp)
  | ok rs =>
    rw [hc] at h
    dsimp only at h
    refine ⟨rs, rfl, ?_⟩
    by_cases c1 : (rs.filterMap id).length < 2
    · rw [if_pos c1] at h
      injection h with h
      exact Or.inl ⟨c1, h.symm⟩
    · rw [if_neg c1] at h
      by_cases c2 : ((rs.filterMap id).map pyLower).dedup.length = 1
      · rw [if_pos c2] at h
        injection h with h
        exact Or.inr (Or.inl ⟨c1, c2, h.symm⟩)
      · rw [if_neg c2] at h
        by_cases c3 : ((rs.filterMap id).map getTier).contains "neutral" = true
        · rw [if_pos c3] at h
          injection h with h
          exact Or.inr (Or.inr (Or.inl ⟨c1, c2, c3, h.symm⟩))
        · rw [if_neg c3] at h
          have c3f : ((rs.filterMap id).map getTier).contains "neutral" = false :=
            Bool.eq_false_iff.2 c3
          by_cases c4 : (((rs.filterMap id).map getTier).contains "positive" &&
              ((rs.filterMap id).map getTier).contains "negative") = true
          · rw [if_pos c4] at h
            injection h with h
            exact Or.inr (Or.inr (Or.inr (Or.inl ⟨c1, c2, c3f, c4, h.symm⟩)))
          · rw [if_neg c4] at h
            have c4f : (((rs.filterMap id).map getTier).contains "positive" &&
                ((rs.filterMap id).map getTier).contains "negative") = false :=
              Bool.eq_false_iff.2 c4
            injection h with h
            exact Or.inr (Or.inr (Or.inr (Or.inr ⟨c1, c2, c3f, c4f, h.symm⟩)))

theorem readRef_oob (l : List Analysis) (i : Nat) (h : l.length ≤ i) : readRef l i = [] := by
  induction l generalizing i with
  | nil => cases i <;> rfl
  | cons a rest ih =>
    cases i with
    | zero => simp at h
    | succ j => exact ih j (by simpa using h)

theorem getAt_applyHarmonize_other (m maj : String) (rs : List (Option String))
    (l : List Analysis) (i : Nat) (k : String) (h1 : k ≠ m) (h2 : k ≠ m ++ "_reason") :
    getAt (applyHarmonize m maj rs l) i k = getAt l i k := by
  cases hr : rs.get? i with
  | none =>
    unfold getAt
    rw [readRef_applyHarmonize_miss m maj l rs i (Or.inr hr)]
  | some o =>
    cases o with
    | none =>
      unfold getAt
      rw [readRef_applyHarmonize_miss m maj l rs i (Or.inl hr)]
    | some w =>
      by_cases hl : i < l.length
      · unfold getAt
        rw [readRef_applyHarmonize_hit m maj l rs i w hr hl]
        exact dictGet_updateOne_other _ m maj k h1 h2
      · unfold getAt
        rw [readRef_oob _ i (by rw [applyHarmonize_length]; omega),
            readRef_oob l i (by omega)]

theorem harmonizeStep_parts (analyses : List Analysis) (m1 : String)
    (st st1 : HarmonizeResult) (h : harmonizeStep analyses m1 st = .ok st1) :
    (st1.metrics_to_debate = st.metrics_to_debate ∨
     st1.metrics_to_debate = st.metrics_to_debate ++ [m1]) ∧
    (∃ e : LogEntry, e.metric = m1 ∧ st1.harmonization_log = st.harmonization_log ++ [e]) ∧
    (st1.harmonized_analyses = st.harmonized_analyses ∨
     ∃ maj rs, st1.harmonized_analyses = applyHarmonize m1 maj rs st.harmonized_analyses) := by
  obtain ⟨rs, _, hbr⟩ := harmonizeStep_cases analyses m1 st st1 h
  rcases hbr with ⟨_, rfl⟩ | ⟨_, _, rfl⟩ | ⟨_, _, _, rfl⟩ | ⟨_, _, _, _, rfl⟩ | ⟨_, _, _, _, rfl⟩
  · exact ⟨Or.inl rfl, ⟨_, rfl, rfl⟩, Or.inl rfl⟩
  · exact ⟨Or.inl rfl, ⟨_, rfl, rfl⟩, Or.inl rfl⟩
  · exact ⟨Or.inr rfl, ⟨_, rfl, rfl⟩, Or.inl rfl⟩
  · exact ⟨Or.inr rfl, ⟨_, rfl, rfl⟩, Or.inl rfl⟩
  · exact ⟨Or.inl rfl, ⟨_, rfl, rfl⟩, Or.inr ⟨_, _, rfl⟩⟩

theorem harmonizeStep_length (analyses : List Analysis) (m1 : String)
    (st st1 : HarmonizeResult) (h : harmonizeStep analyses m1 st = .ok st1) :
    st1.harmonized_analyses.length = st.harmonized_analyses.length := by
  rcases (harmonizeStep_parts analyses m1 st st1 h).2.2 with he | ⟨maj, rs, he⟩
  · rw [he]
  · rw [he, applyHarmonize_length]

theorem harmonizeStep_frame (analyses : List Analysis) (m1 : String)
    (st st1 : HarmonizeResult) (h : harmonizeStep analyses m1 st = .ok st1)
    (k : String) (h1 : k ≠ m1) (h2 : k ≠ m1 ++ "_reason") (i : Nat) :
    getAt st1.harmonized_analyses i k = getAt st.harmonized_analyses i k := by
  rcases (harmonizeStep_parts analyses m1 st st1 h).2.2 with he | ⟨maj, rs, he⟩
  · rw [he]
  · rw [he, getAt_applyHarmonize_other m1 maj rs _ i k h1 h2]

theorem harmonizeLoop_mono (analyses : List Analysis) :
    ∀ (ms : List String) (st out : HarmonizeResult),
      harmonizeLoop analyses ms st = .ok out →
      (∀ x ∈ st.metrics_to_debate, x ∈ out.metrics_to_debate) ∧
      (∀ e ∈ st.harmonization_log, e ∈ out.harmonization_log) := by
  intro ms
  induction ms with
  | nil =>
    intro st out h
    injection h with h
    rw [h]
    exact ⟨fun x hx => hx, fun e he => he⟩
  | cons m1 rest ih =>
    intro st out h
    unfold harmonizeLoop at h
    cases he : harmonizeStep analyses m1 st with
    | error e => rw [he] at h; exact absurd h (by simp)
    | ok st1 =>
      rw [he] at h
      obtain ⟨hdeb, ⟨e0, _, hlog⟩, _⟩ := harmonizeStep_parts analyses m1 st st1 he
      have hrec := ih st1 out h
      constructor
      · intro x hx
        apply hrec.1
        rcases hdeb with hd | hd <;> rw [hd]
        · exact hx
        · exact List.mem_append_left _ hx
      · intro e2 he2
        apply hrec.2
        rw [hlog]
        exact List.mem_append_left _ he2

theorem harmonizeLoop_notin (analyses : List Analysis) (m : String) :
    ∀ (ms : List String) (st out : HarmonizeResult),
      harmonizeLoop analyses ms st = .ok out → m ∉ ms →
      (m ∉ st.metrics_to_debate → m ∉ out.metrics_to_debate) ∧
      (∀ e ∈ out.harmonization_log, e.metric = m → e ∈ st.harmonization_log) := by
  intro ms
  induction ms with
  | nil =>
    intro st out h _
    injection h with h
    rw [h]
    exact ⟨fun hx => hx, fun e he _ => he⟩
  | cons m1 rest ih =>
    intro st out h hm
    have hm1 : m1 ≠ m := by
      intro he
      exact hm (he ▸ List.mem_cons_self m1 rest)
    have hmr : m ∉ rest := fun hr => hm (List.mem_cons_of_mem m1 hr)
    unfold harmonizeLoop at h
    cases he : harmonizeStep analyses m1 st with
    | error e => rw [he] at h; exact absurd h (by simp)
    | ok st1 =>
      rw [he] at h
      obtain ⟨hdeb, ⟨e0, he0, hlog⟩, _⟩ := harmonizeStep_parts analyses m1 st st1 he
      have hrec := ih st1 out h hmr
      constructor
      · intro hst
        apply hrec.1
        rcases hdeb with hd | hd <;> rw [hd]
        · exact hst
        · intro hx
          rcases List.mem_append.1 hx with hx | hx
          · exact hst hx
          · rw [List.mem_singleton] at hx
            exact hm1 hx.symm
      · intro e2 he2 hme
        have := hrec.2 e2 he2 hme
        rw [hlog] at this
        rcases List.mem_append.1 this with h3 | h3
        · exact h3
        · rw [List.mem_singleton] at h3
          subst h3
          exact absurd (he0 ▸ hme : m1 = m) hm1

theorem harmonizeLoop_length (analyses : List Analysis) :
    ∀ (ms : List String) (st out : HarmonizeResult),
      harmonizeLoop analyses ms st = .ok out →
      out.harmonized_analyses.length = st.harmonized_analyses.length := by
  intro ms
  induction ms with
  | nil =>
    intro st out h
    injection h with h
    rw [h]
  | cons m1 rest ih =>
    intro st out h
    unfold harmonizeLoop at h
    cases he : harmonizeStep analyses m1 st with
    | error e => rw [he] at h; exact absurd h (by simp)
    | ok st1 =>
      rw [he] at h
      rw [ih st1 out h, harmonizeStep_length analyses m1 st st1 he]

theorem harmonizeLoop_frame (analyses : List Analysis) :
    ∀ (ms : List String) (st out : HarmonizeResult),
      harmonizeLoop analyses ms st = .ok out →
      ∀ k, (∀ m1 ∈ ms, k ≠ m1 ∧ k ≠ m1 ++ "_reason") →
      ∀ i, getAt out.harmonized_analyses i k = getAt st.harmonized_analyses i k := by
  intro ms
  induction ms with
  | nil =>
    intro st out h k _ i
    injection h with h
    rw [h]
  | cons m1 rest ih =>
    intro st out h k hk i
    unfold harmonizeLoop at h
    cases he : harmonizeStep analyses m1 st with
    | error e => rw [he] at h; exact absurd h (by simp)
    | ok st1 =>
      rw [he] at h
      have hk1 := hk m1 (List.mem_cons_self m1 rest)
      rw [ih st1 out h k (fun m2 hm2 => hk m2 (List.mem_cons_of_mem m1 hm2)) i]
      exact harmonizeStep_frame analyses m1 st st1 he k hk1.1 hk1.2 i

theorem harmonizeLoop_target (analyses : List Analysis) (m : String) :
    ∀ (ms : List String) (st out : HarmonizeResult),
      harmonizeLoop analyses ms st = .ok out → m ∈ ms → ms.Nodup →
      (∀ m1 ∈ ms, m1 ≠ m → keyDisj m m1) →
      st.harmonized_analyses.length = analyses.length →
      mkeysEq analyses st.harmonized_analyses m →
      m ∉ st.metrics_to_debate →
      (∀ e ∈ st.harmonization_log, e.metric ≠ m) →
      ∃ rs, collectRatings analyses m = .ok rs ∧
        ((rs.filterMap id).length < 2 →
          mkeysEq analyses out.harmonized_analyses m ∧ m ∉ out.metrics_to_debate ∧
          logOnly out m ⟨m, "skipped", some "insufficient_data", some rs, none, none⟩) ∧
        (¬(rs.filterMap id).length < 2 →
         ((rs.filterMap id).map pyLower).dedup.length = 1 →
          mkeysEq analyses out.harmonized_analyses m ∧ m ∉ out.metrics_to_debate ∧
          logOnly out m ⟨m, "already_aligned", none, some rs,
            some (pyCapitalize ((rs.filterMap id).headD "")), none⟩) ∧
        (¬(rs.filterMap id).length < 2 →
         ¬((rs.filterMap id).map pyLower).dedup.length = 1 →
         ((rs.filterMap id).map getTier).contains "neutral" = true →
          mkeysEq analyses out.harmonized_analyses m ∧ m ∈ out.metrics_to_debate ∧
          logOnly out m ⟨m, "debate", some "neutral_present", some rs, none, none⟩) ∧
        (¬(rs.filterMap id).length < 2 →
         ¬((rs.filterMap id).map pyLower).dedup.length = 1 →
         ((rs.filterMap id).map getTier).contains "neutral" = false →
         (((rs.filterMap id).map getTier).contains "positive" &&
           ((rs.filterMap id).map getTier).contains "negative") = true →
          mkeysEq analyses out.harmonized_analyses m ∧ m ∈ out.metrics_to_debate ∧
          logOnly out m ⟨m, "debate", some "cross_tier_conflict", some rs, none, none⟩) ∧
        (¬(rs.filterMap id).length < 2 →
         ¬((rs.filterMap id).map pyLower).dedup.length = 1 →
         ((rs.filterMap id).map getTier).contains "neutral" = false →
         (((rs.filterMap id).map getTier).contains "positive" &&
           ((rs.filterMap id).map getTier).contains "negative") = false →
          m ∉ out.metrics_to_debate ∧
          logOnly out m ⟨m, "harmonized", none, none,
            some ((get_majority (rs.filterMap id)).getD ""), some rs⟩ ∧
          (∀ i w, rs.get? i = some (some w) →
            getAt out.harmonized_analyses i m = (get_majority (rs.filterMap id)).getD "" ∧
            getAt out.harmonized_analyses i (m ++ "_reason") =
              (if getAt analyses i (m ++ "_reason") ≠ "" ∧
                  pyIn "Harmonized" (getAt analyses i (m ++ "_reason")) = false
               then getAt analyses i (m ++ "_reason") ++ " [Harmonized to "
                    ++ ((get_majority (rs.filterMap id)).getD "") ++ "]"
               else getAt analyses i (m ++ "_reason"))) ∧
          (∀ i, rs.get? i = some none ∨ rs.get? i = none →
            getAt out.harmonized_analyses i m = getAt analyses i m ∧
            getAt out.harmonized_analyses i (m ++ "_reason")
              = getAt analyses i (m ++ "_reason"))) := by
  intro ms
  induction ms with
  | nil => intro st out _ hm; simp at hm
  | cons m1 rest ih =>
    intro st out h hm hnd hdisj hlen hinv hdeb hlog
    unfold harmonizeLoop at h
    cases he : harmonizeStep analyses m1 st with
    | error e => rw [he] at h; exact absurd h (by simp)
    | ok st1 =>
      rw [he] at h
      have hnd1 := List.nodup_cons.1 hnd
      by_cases hm1 : m1 = m
      · subst hm1
        have hmr : m1 ∉ rest := hnd1.1
        obtain ⟨rs, hrs, hbr⟩ := harmonizeStep_cases analyses m1 st st1 he
        have hrestkeys : ∀ k0, (k0 = m1 ∨ k0 = m1 ++ "_reason") →
            ∀ m2 ∈ rest, k0 ≠ m2 ∧ k0 ≠ m2 ++ "_reason" := by
          intro k0 hk0 m2 hm2
          have hne2 : m2 ≠ m1 := fun he2 => hmr (he2 ▸ hm2)
          have hd := hdisj m2 (List.mem_cons_of_mem m1 hm2) hne2
          rcases hk0 with rfl | rfl
          · exact ⟨hd.1, hd.2.1⟩
          · exact ⟨hd.2.2.1, hd.2.2.2⟩
        have hframe : ∀ i,
            getAt out.harmonized_analyses i m1 = getAt st1.harmonized_analyses i m1 ∧
            getAt out.harmonized_analyses i (m1 ++ "_reason")
              = getAt st1.harmonized_analyses i (m1 ++ "_reason") := by
          intro i
          exact ⟨harmonizeLoop_frame analyses rest st1 out h m1
              (hrestkeys m1 (Or.inl rfl)) i,
            harmonizeLoop_frame analyses rest st1 out h (m1 ++ "_reason")
              (hrestkeys (m1 ++ "_reason") (Or.inr rfl)) i⟩
        have hnotin := harmonizeLoop_notin analyses m1 rest st1 out h hmr
        have hmono := harmonizeLoop_mono analyses rest st1 out h
        refine ⟨rs, hrs, ?_⟩
        have hlogonly : ∀ e0 : LogEntry, e0.metric = m1 →
            st1.harmonization_log = st.harmonization_log ++ [e0] →
            logOnly out m1 e0 := by
          intro e0 hm0 hl0
          constructor
          · exact hmono.2 e0 (by rw [hl0]; exact List.mem_append_right _ (by simp))
          · intro e1 he1 hme1
            have h2 := hnotin.2 e1 he1 hme1
            rw [hl0] at h2
            rcases List.mem_append.1 h2 with h3 | h3
            · exact absurd hme1 (hlog e1 h3)
            · simpa using h3
        rcases hbr with ⟨c1, hst1⟩ | ⟨c1, c2, hst1⟩ | ⟨c1, c2, c3, hst1⟩ |
          ⟨c1, c2, c3, c4, hst1⟩ | ⟨c1, c2, c3, c4, hst1⟩
        · -- skipped
          have hmk : mkeysEq analyses out.harmonized_analyses m1 := by
            intro i
            rw [(hframe i).1, (hframe i).2, hst1]
            exact hinv i
          have hdeb1 : m1 ∉ out.metrics_to_debate := by
            apply hnotin.1
            rw [hst1]
            exact hdeb
          refine ⟨fun _ => ⟨hmk, hdeb1, hlogonly _ rfl (by rw [hst1])⟩,
            fun hno _ => absurd c1 hno, fun hno _ _ => absurd c1 hno,
            fun hno _ _ _ => absurd c1 hno, fun hno _ _ _ => absurd c1 hno⟩
        · -- already_aligned
          have hmk : mkeysEq analyses out.harmonized_analyses m1 := by
            intro i
            rw [(hframe i).1, (hframe i).2, hst1]
            exact hinv i
          have hdeb1 : m1 ∉ out.metrics_to_debate := by
            apply hnotin.1
            rw [hst1]
            exact hdeb
          refine ⟨fun hlt => absurd hlt c1,
            fun _ _ => ⟨hmk, hdeb1, hlogonly _ rfl (by rw [hst1])⟩,
            fun _ hd _ => absurd c2 hd, fun _ hd _ _ => absurd c2 hd,
            fun _ hd _ _ => absurd c2 hd⟩
        · -- debate, neutral_present
          have hmk : mkeysEq analyses out.harmonized_analyses m1 := by
            intro i
            rw [(hframe i).1, (hframe i).2, hst1]
            exact hinv i
          have hdeb1 : m1 ∈ out.metrics_to_debate := by
            apply hmono.1
            rw [hst1]
            exact List.mem_append_right _ (by simp)
          refine ⟨fun hlt => absurd hlt c1, fun _ hd => absurd hd c2,
            fun _ _ _ => ⟨hmk, hdeb1, hlogonly _ rfl (by rw [hst1])⟩,
            fun _ _ hn _ => by rw [c3] at hn; exact absurd hn (by simp),
            fun _ _ hn _ => by rw [c3] at hn; exact absurd hn (by simp)⟩
        · -- debate, cross_tier_conflict
          have hmk : mkeysEq analyses out.harmonized_analyses m1 := by
            intro i
            rw [(hframe i).1, (hframe i).2, hst1]
            exact hinv i
          have hdeb1 : m1 ∈ out.metrics_to_debate := by
            apply hmono.1
            rw [hst1]
            exact List.mem_append_right _ (by simp)
          refine ⟨fun hlt => absurd hlt c1, fun _ hd => absurd hd c2,
            fun _ _ hn => by rw [c3] at hn; exact absurd hn (by simp),
            fun _ _ _ _ => ⟨hmk, hdeb1, hlogonly _ rfl (by rw [hst1])⟩,
            fun _ _ _ hpn => by rw [c4] at hpn; exact absurd hpn (by simp)⟩
        · -- harmonized
          have hdeb1 : m1 ∉ out.metrics_to_debate := by
            apply hnotin.1
            rw [hst1]
            exact hdeb
          have hrslen : rs.length = analyses.length := collectRatings_length m1 analyses rs hrs
          refine ⟨fun hlt => absurd hlt c1, fun _ hd => absurd hd c2,
            fun _ _ hn => by rw [c3] at hn; exact absurd hn (by simp),
            fun _ _ _ hpn => by rw [c4] at hpn; exact absurd hpn (by simp),
            fun _ _ _ _ => ⟨hdeb1, hlogonly _ rfl (by rw [hst1]), ?_, ?_⟩⟩
          · intro i w hr
            have hi : i < rs.length := by
              by_contra hge
              rw [List.get?_eq_none.2 (by omega)] at hr
              exact absurd hr (by simp)
            have hist : i < st.harmonized_analyses.length := by omega
            constructor
            · rw [(hframe i).1, hst1]
              show dictGet (readRef (applyHarmonize m1 _ rs st.harmonized_analyses) i) m1 = _
              rw [readRef_applyHarmonize_hit _ _ _ rs i w hr hist]
              exact dictGet_updateOne_metric _ m1 _
            · rw [(hframe i).2, hst1]
              show dictGet (readRef (applyHarmonize m1 _ rs st.harmonized_analyses) i)
                (m1 ++ "_reason") = _
              rw [readRef_applyHarmonize_hit _ _ _ rs i w hr hist]
              rw [dictGet_updateOne_reason]
              rw [show dictGet (readRef st.harmonized_analyses i) (m1 ++ "_reason")
                  = getAt st.harmonized_analyses i (m1 ++ "_reason") from rfl]
              rw [(hinv i).2]
          · intro i hr
            constructor
            · rw [(hframe i).1, hst1]
              show dictGet (readRef (applyHarmonize m1 _ rs st.harmonized_analyses) i) m1 = _
              rw [readRef_applyHarmonize_miss _ _ _ rs i hr]
              exact (hinv i).1
            · rw [(hframe i).2, hst1]
              show dictGet (readRef (applyHarmonize m1 _ rs st.harmonized_analyses) i)
                (m1 ++ "_reason") = _
              rw [readRef_applyHarmonize_miss _ _ _ rs i hr]
              exact (hinv i).2
      · have hm2 : m ∈ rest := by
          rcases List.mem_cons.1 hm with rfl | hmr2
          · exact absurd rfl hm1
          · exact hmr2
        have hd1 : keyDisj m m1 := hdisj m1 (List.mem_cons_self m1 rest) hm1
        obtain ⟨hdebp, ⟨e0, he0, hlogp⟩, _⟩ := harmonizeStep_parts analyses m1 st st1 he
        refine ih st1 out h hm2 hnd1.2
          (fun m2 hm2m => hdisj m2 (List.mem_cons_of_mem m1 hm2m)) ?_ ?_ ?_ ?_
        · rw [harmonizeStep_length analyses m1 st st1 he, hlen]
        · intro i
          constructor
          · rw [harmonizeStep_frame analyses m1 st st1 he m hd1.1 hd1.2.1 i]
            exact (hinv i).1
          · rw [harmonizeStep_frame analyses m1 st st1 he (m ++ "_reason")
              hd1.2.2.1 hd1.2.2.2 i]
            exact (hinv i).2
        · rcases hdebp with hd | hd <;> rw [hd]
          · exact hdeb
          · intro hx
            rcases List.mem_append.1 hx with hx | hx
            · exact hdeb hx
            · rw [List.mem_singleton] at hx
              exact hm1 hx.symm
        · intro e1 he1
          rw [hlogp] at he1
          rcases List.mem_append.1 he1 with h3 | h3
          · exact hlog e1 h3
          · rw [List.mem_singleton] at h3
            subst h3
            rw [he0]
            exact hm1


/-- C1 (amended): a metric with at least two non-missing first-token
ratings that include at least one Neutral and are not all
case-insensitively identical is flagged for debate with
reason `neutral_present`, and its ratings are left unmutated.  (As stated,
the claim is refuted by `harmonize_neutral_unanimous_counterexample`: the
unanimity check runs first, so an all-Neutral metric is `already_aligned`,
and a metric with fewer than two non-missing ratings is `skipped`.) -/
theorem harmonize_neutral_flags_debate (analyses : List Analysis) (out : HarmonizeResult)
    (m : String) (rs : List (Option String))
    (hok : harmonize_and_check_debates analyses = .ok out)
    (hm : m ∈ METRICS)
    (hrs : collectRatings analyses m = .ok rs)
    (h2 : ¬(rs.filterMap id).length < 2)
    (hneu : "Neutral" ∈ rs.filterMap id)
    (hnotall : ¬((rs.filterMap id).map pyLower).dedup.length = 1) :
    m ∈ out.metrics_to_debate ∧
    logOnly out m ⟨m, "debate", some "neutral_present", some rs, none, none⟩ ∧
    mkeysEq analyses out.harmonized_analyses m := by
  obtain ⟨rs2, hrs2, hc⟩ := harmonizeLoop_target analyses m METRICS ⟨analyses, [], []⟩ out
    hok hm metrics_nodup (fun m1 hm1 hne => metrics_keyDisj m hm m1 hm1 hne) rfl
    (fun i => ⟨rfl, rfl⟩) (by simp) (by simp)
  rw [hrs] at hrs2
  injection hrs2 with hrs2
  subst hrs2
  have hcont : ((rs.filterMap id).map getTier).contains "neutral" = true := by
    apply List.elem_eq_true_of_mem
    have : getTier "Neutral" = "neutral" := by decide
    rw [← this]
    exact List.mem_map_of_mem getTier hneu
  obtain ⟨hmk, hdeb, hlo⟩ := hc.2.2.1 h2 hnotall hcont
  exact ⟨hdeb, hlo, hmk⟩

/-- Witness for C1's amended theorem: ratings Neutral/Good/Good on revenue
are flagged for debate with reason neutral_present and left unchanged. -/
theorem harmonize_neutral_flags_debate_witness :
    "revenue" ∈ (⟨[[("revenue", "Neutral")], [("revenue", "Good")], [("revenue", "Good")]],
        ["revenue"],
        [⟨"revenue", "debate", some "neutral_present",
            some [some "Neutral", some "Good", some "Good"], none, none⟩,
         ⟨"net_income", "skipped", some "insufficient_data", some [none, none, none], none, none⟩,
         ⟨"gross_margin", "skipped", some "insufficient_data", some [none, none, none], none, none⟩,
         ⟨"operational_costs", "skipped", some "insufficient_data",
            some [none, none, none], none, none⟩,
         ⟨"cash_flow", "skipped", some "insufficient_data", some [none, none, none], none, none⟩,
         ⟨"quaterly_growth", "skipped", some "insufficient_data",
            some [none, none, none], none, none⟩,
         ⟨"total_assets", "skipped", some "insufficient_data", some [none, none, none], none, none⟩,
         ⟨"total_debt", "skipped", some "insufficient_data", some [none, none, none], none, none⟩]⟩
      : HarmonizeResult).metrics_to_debate ∧
    mkeysEq [[("revenue", "Neutral")], [("revenue", "Good")], [("revenue", "Good")]]
      [[("revenue", "Neutral")], [("revenue", "Good")], [("revenue", "Good")]] "revenue" := by
  have h := harmonize_neutral_flags_debate
    [[("revenue", "Neutral")], [("revenue", "Good")], [("revenue", "Good")]]
    ⟨[[("revenue", "Neutral")], [("revenue", "Good")], [("revenue", "Good")]],
        ["revenue"],
        [⟨"revenue", "debate", some "neutral_present",
            some [some "Neutral", some "Good", some "Good"], none, none⟩,
         ⟨"net_income", "skipped", some "insufficient_data", some [none, none, none], none, none⟩,
         ⟨"gross_margin", "skipped", some "insufficient_data", some [none, none, none], none, none⟩,
         ⟨"operational_costs", "skipped", some "insufficient_data",
            some [none, none, none], none, none⟩,
         ⟨"cash_flow", "skipped", some "insufficient_data", some [none, none, none], none, none⟩,
         ⟨"quaterly_growth", "skipped", some "insufficient_data",
            some [none, none, none], none, none⟩,
         ⟨"total_assets", "skipped", some "insufficient_data", some [none, none, none], none, none⟩,
         ⟨"total_debt", "skipped", some "insufficient_data", some [none, none, none], none, none⟩]⟩
    "revenue" [some "Neutral", some "Good", some "Good"]
    (by rfl) (by decide) (by rfl) (by decide) (by decide) (by decide)
  exact ⟨h.1, h.2.2⟩

theorem get_majority_two_of_three (a c : String) (ha : a ≠ "") (hc : c ≠ "")
    (hne : pyLower c ≠ pyLower a) (valid : List String)
    (hv : valid = [a, a, c] ∨ valid = [a, c, a] ∨ valid = [c, a, a]) :
    get_majority valid = some (pyCapitalize (pyLower a)) := by
  have hne2 : pyLower a ≠ pyLower c := fun h => hne h.symm
  rcases hv with rfl | rfl | rfl
  · have t1 : tally [a, a, c] = [(pyLower a, 2), (pyLower c, 1)] := by
      simp [tally, List.foldl, ha, hc, insertTally, hne2]
    simp only [get_majority, t1, maxByCount, List.foldl]
    norm_num
  · have t1 : tally [a, c, a] = [(pyLower a, 2), (pyLower c, 1)] := by
      simp [tally, List.foldl, ha, hc, insertTally, hne, hne2]
    simp only [get_majority, t1, maxByCount, List.foldl]
    norm_num
  · have t1 : tally [c, a, a] = [(pyLower c, 1), (pyLower a, 2)] := by
      simp [tally, List.foldl, ha, hc, insertTally, hne, hne2]
    simp only [get_majority, t1, maxByCount, List.foldl]
    norm_num

/-- C3 (amended): when all non-missing first-token ratings of a metric lie
in one non-Neutral tier and are not all identical, the harmonizer
overwrites every non-missing analyst's rating to the majority label (ties
broken by first-seen insertion order inside `_get_majority`), appends the
harmonization annotation to each such analyst's rationale exactly when the
rationale is non-empty and does not already contain "Harmonized" (an empty
rationale receives no annotation — this is the correction forced by
`harmonize_annotation_empty_counterexample`), leaves missing analysts
untouched, logs action=harmonized, does not flag the metric, and when
exactly two of three ratings agree case-insensitively the majority equals
the repeated value's canonical capitalization. -/
theorem harmonize_same_tier_spec (analyses : List Analysis) (out : HarmonizeResult)
    (m : String) (rs : List (Option String)) (t : String)
    (hok : harmonize_and_check_debates analyses = .ok out)
    (hm : m ∈ METRICS)
    (hrs : collectRatings analyses m = .ok rs)
    (h2 : ¬(rs.filterMap id).length < 2)
    (hsame : ∀ r ∈ rs.filterMap id, getTier r = t)
    (htne : t ≠ "neutral")
    (hnotall : ¬((rs.filterMap id).map pyLower).dedup.length = 1) :
    (∀ i w, rs.get? i = some (some w) →
      getAt out.harmonized_analyses i m = (get_majority (rs.filterMap id)).getD "" ∧
      getAt out.harmonized_analyses i (m ++ "_reason") =
        (if getAt analyses i (m ++ "_reason") ≠ "" ∧
            pyIn "Harmonized" (getAt analyses i (m ++ "_reason")) = false
         then getAt analyses i (m ++ "_reason") ++ " [Harmonized to "
              ++ ((get_majority (rs.filterMap id)).getD "") ++ "]"
         else getAt analyses i (m ++ "_reason"))) ∧
    (∀ i, rs.get? i = some none ∨ rs.get? i = none →
      getAt out.harmonized_analyses i m = getAt analyses i m ∧
      getAt out.harmonized_analyses i (m ++ "_reason")
        = getAt analyses i (m ++ "_reason")) ∧
    m ∉ out.metrics_to_debate ∧
    logOnly out m ⟨m, "harmonized", none, none,
      some ((get_majority (rs.filterMap id)).getD ""), some rs⟩ ∧
    (∀ a c, a ≠ "" → c ≠ "" → pyLower c ≠ pyLower a →
      (rs.filterMap id = [a, a, c] ∨ rs.filterMap id = [a, c, a] ∨
       rs.filterMap id = [c, a, a]) →
      (get_majority (rs.filterMap id)).getD "" = pyCapitalize (pyLower a)) := by
  obtain ⟨rs2, hrs2, hc⟩ := harmonizeLoop_target analyses m METRICS ⟨analyses, [], []⟩ out
    hok hm metrics_nodup (fun m1 hm1 hne => metrics_keyDisj m hm m1 hm1 hne) rfl
    (fun i => ⟨rfl, rfl⟩) (by simp) (by simp)
  rw [hrs] at hrs2
  injection hrs2 with hrs2
  subst hrs2
  have hneut : ((rs.filterMap id).map getTier).contains "neutral" = false := by
    by_cases hb : ((rs.filterMap id).map getTier).contains "neutral" = true
    · exfalso
      have hmem := List.mem_of_elem_eq_true hb
      rw [List.mem_map] at hmem
      obtain ⟨r, hr, hrt⟩ := hmem
      exact htne ((hsame r hr) ▸ hrt)
    · exact Bool.eq_false_iff.2 hb
  have hcross : (((rs.filterMap id).map getTier).contains "positive" &&
      ((rs.filterMap id).map getTier).contains "negative") = false := by
    by_cases hb : (((rs.filterMap id).map getTier).contains "positive" &&
        ((rs.filterMap id).map getTier).contains "negative") = true
    · exfalso
      rw [Bool.and_eq_true] at hb
      have hp := List.mem_of_elem_eq_true hb.1
      have hn := List.mem_of_elem_eq_true hb.2
      rw [List.mem_map] at hp hn
      obtain ⟨r1, hr1, hrt1⟩ := hp
      obtain ⟨r2, hr2, hrt2⟩ := hn
      have e1 : t = "positive" := (hsame r1 hr1) ▸ hrt1.symm ▸ rfl
      have e2 : t = "negative" := (hsame r2 hr2) ▸ hrt2.symm ▸ rfl
      rw [e1] at e2
      exact absurd e2 (by decide)
    · exact Bool.eq_false_iff.2 hb
  obtain ⟨hdeb, hlo, hhit, hmiss⟩ := hc.2.2.2.2 h2 hnotall hneut hcross
  refine ⟨hhit, hmiss, hdeb, hlo, ?_⟩
  intro a c1 hha hhc hne hv
  rw [get_majority_two_of_three a c1 hha hhc hne _ hv]
  rfl

/-- Witness for C3's amended theorem: Good/Excellent/Good on revenue is
harmonized to "Good"; the two non-empty rationales get the annotation, the
empty one stays empty, and the two-of-three majority equals the repeated
value. -/
theorem harmonize_same_tier_spec_witness :
    getAt (⟨[[("revenue", "Good"), ("revenue_reason", "r1 [Harmonized to Good]")],
             [("revenue", "Good"), ("revenue_reason", "r2 [Harmonized to Good]")],
             [("revenue", "Good")]],
            [],
            [⟨"revenue", "harmonized", none, none, some "Good",
                some [some "Good", some "Excellent", some "Good"]⟩,
             ⟨"net_income", "skipped", some "insufficient_data",
                some [none, none, none], none, none⟩,
             ⟨"gross_margin", "skipped", some "insufficient_data",
                some [none, none, none], none, none⟩,
             ⟨"operational_costs", "skipped", some "insufficient_data",
                some [none, none, none], none, none⟩,
             ⟨"cash_flow", "skipped", some "insufficient_data",
                some [none, none, none], none, none⟩,
             ⟨"quaterly_growth", "skipped", some "insufficient_data",
                some [none, none, none], none, none⟩,
             ⟨"total_assets", "skipped", some "insufficient_data",
                some [none, none, none], none, none⟩,
             ⟨"total_debt", "skipped", some "insufficient_data",
                some [none, none, none], none, none⟩]⟩
      : HarmonizeResult).harmonized_analyses 0 "revenue"
      = (get_majority (([some "Good", some "Excellent", some "Good"]
          : List (Option String)).filterMap id)).getD "" ∧
    (get_majority (([some "Good", some "Excellent", some "Good"]
        : List (Option String)).filterMap id)).getD "" = pyCapitalize (pyLower "Good") ∧
    pyCapitalize (pyLower "Good") = "Good" := by
  have h := harmonize_same_tier_spec
    [[("revenue", "Good"), ("revenue_reason", "r1")],
     [("revenue", "Excellent"), ("revenue_reason", "r2")],
     [("revenue", "Good")]]
    ⟨[[("revenue", "Good"), ("revenue_reason", "r1 [Harmonized to Good]")],
      [("revenue", "Good"), ("revenue_reason", "r2 [Harmonized to Good]")],
      [("revenue", "Good")]],
     [],
     [⟨"revenue", "harmonized", none, none, some "Good",
         some [some "Good", some "Excellent", some "Good"]⟩,
      ⟨"net_income", "skipped", some "insufficient_data",
         some [none, none, none], none, none⟩,
      ⟨"gross_margin", "skipped", some "insufficient_data",
         some [none, none, none], none, none⟩,
      ⟨"operational_costs", "skipped", some "insufficient_data",
         some [none, none, none], none, none⟩,
      ⟨"cash_flow", "skipped", some "insufficient_data",
         some [none, none, none], none, none⟩,
      ⟨"quaterly_growth", "skipped", some "insufficient_data",
         some [none, none, none], none, none⟩,
      ⟨"total_assets", "skipped", some "insufficient_data",
         some [none, none, none], none, none⟩,
      ⟨"total_debt", "skipped", some "insufficient_data",
         some [none, none, none], none, none⟩]⟩
    "revenue" [some "Good", some "Excellent", some "Good"] "positive"
    (by rfl) (by decide) (by rfl) (by decide) (by decide) (by decide) (by decide)
  refine ⟨(h.1 0 "Good" rfl).1, ?_, rfl⟩
  exact h.2.2.2.2 "Good" "Excellent" (by decide) (by decide) (by decide) (Or.inr (Or.inl rfl))


theorem collectRatings_valOk (m : String) : ∀ (l : List Analysis) (rs : List (Option String)),
    collectRatings l m = .ok rs →
    ∀ i, i < l.length → valOk (getAt l i m) := by
  intro l
  induction l with
  | nil => intro rs _ i hi; simp at hi
  | cons a rest ih =>
    intro rs h i hi
    unfold collectRatings at h
    by_cases hm : isMissing (dictGet a m)
    · rw [if_pos hm] at h
      cases hc : collectRatings rest m with
      | error e => rw [hc] at h; exact absurd h (by simp [Except.map])
      | ok rs1 =>
        cases i with
        | zero => exact Or.inl hm
        | succ j => exact ih rs1 hc j (by simpa using hi)
    · rw [if_neg hm] at h
      cases hw : capFirstWord (dictGet a m) with
      | error e => rw [hw] at h; exact absurd h (by simp)
      | ok w =>
        rw [hw] at h
        cases hc : collectRatings rest m with
        | error e => rw [hc] at h; exact absurd h (by simp [Except.map])
        | ok rs1 =>
          cases i with
          | zero =>
            right
            unfold capFirstWord at hw
            cases hs : pySplit (dictGet a m) with
            | nil => rw [hs] at hw; exact absurd hw (by simp)
            | cons w0 ws =>
              show pySplit (getAt (a :: rest) 0 m) ≠ []
              rw [show getAt (a :: rest) 0 m = dictGet a m from rfl, hs]
              simp
          | succ j => exact ih rs1 hc j (by simpa using hi)

theorem collectRatings_idx (m : String) : ∀ (l : List Analysis) (rs : List (Option String)),
    collectRatings l m = .ok rs →
    ∀ i, i < l.length →
      (rs.get? i = some none → isMissing (getAt l i m) = true) ∧
      (∀ w, rs.get? i = some (some w) → isMissing (getAt l i m) = false) := by
  intro l
  induction l with
  | nil => intro rs _ i hi; simp at hi
  | cons a rest ih =>
    intro rs h i hi
    unfold collectRatings at h
    by_cases hm : isMissing (dictGet a m)
    · rw [if_pos hm] at h
      cases hc : collectRatings rest m with
      | error e => rw [hc] at h; exact absurd h (by simp [Except.map])
      | ok rs1 =>
        rw [hc] at h
        simp only [Except.map] at h
        injection h with h
        subst h
        cases i with
        | zero => exact ⟨fun _ => hm, fun w hw => by simp at hw⟩
        | succ j => exact ih rs1 hc j (by simpa using hi)
    · rw [if_neg hm] at h
      cases hw : capFirstWord (dictGet a m) with
      | error e => rw [hw] at h; exact absurd h (by simp)
      | ok w =>
        rw [hw] at h
        cases hc : collectRatings rest m with
        | error e => rw [hc] at h; exact absurd h (by simp [Except.map])
        | ok rs1 =>
          rw [hc] at h
          simp only [Except.map] at h
          injection h with h
          subst h
          cases i with
          | zero =>
            refine ⟨fun hz => by simp at hz, fun w2 _ => ?_⟩
            simpa using hm
          | succ j => exact ih rs1 hc j (by simpa using hi)

theorem collectRatings_entries (m : String) : ∀ (l : List Analysis) (rs : List (Option String)),
    collectRatings l m = .ok rs →
    ∀ w ∈ rs.filterMap id, w ≠ "" ∧ ∀ c ∈ w.data, c.isWhitespace = false := by
  intro l
  induction l with
  | nil =>
    intro rs h w hw
    injection h with h
    subst h
    simp at hw
  | cons a rest ih =>
    intro rs h w hw
    unfold collectRatings at h
    by_cases hm : isMissing (dictGet a m)
    · rw [if_pos hm] at h
      cases hc : collectRatings rest m with
      | error e => rw [hc] at h; exact absurd h (by simp [Except.map])
      | ok rs1 =>
        rw [hc] at h
        simp only [Except.map] at h
        injection h with h
        subst h
        rw [show (none :: rs1).filterMap id = rs1.filterMap id by simp] at hw
        exact ih rs1 hc w hw
    · rw [if_neg hm] at h
      cases hcap : capFirstWord (dictGet a m) with
      | error e => rw [hcap] at h; exact absurd h (by simp)
      | ok w1 =>
        rw [hcap] at h
        cases hc : collectRatings rest m with
        | error e => rw [hc] at h; exact absurd h (by simp [Except.map])
        | ok rs1 =>
          rw [hc] at h
          simp only [Except.map] at h
          injection h with h
          subst h
          rw [show (some w1 :: rs1).filterMap id = w1 :: rs1.filterMap id by simp] at hw
          rcases List.mem_cons.1 hw with rfl | hw2
          · unfold capFirstWord at hcap
            cases hs : pySplit (dictGet a m) with
            | nil => rw [hs] at hcap; exact absurd hcap (by simp)
            | cons w0 ws =>
              rw [hs] at hcap
              injection hcap with hcap
              subst hcap
              have htok := pySplit_tokens (dictGet a m) w0 (hs ▸ List.mem_cons_self w0 ws)
              exact ⟨pyCapitalize_ne_empty w0 htok.1, pyCapitalize_not_ws w0 htok.2⟩
          · exact ih rs1 hc w hw2

theorem collectRatings_of_pointwise (m u : String) (hu : pySplit u = [u])
    (humiss : isMissing u = false) :
    ∀ (l2 : List Analysis) (rs : List (Option String)),
      rs.length = l2.length →
      (∀ i, i < l2.length →
        (rs.get? i = some none → isMissing (getAt l2 i m) = true) ∧
        (∀ w, rs.get? i = some (some w) → getAt l2 i m = u)) →
      collectRatings l2 m = .ok (rs.map (Option.map (fun _ => pyCapitalize u))) := by
  intro l2
  induction l2 with
  | nil =>
    intro rs hlen _
    rw [List.length_nil, List.length_eq_zero] at hlen
    subst hlen
    rfl
  | cons a rest ih =>
    intro rs hlen hpt
    cases rs with
    | nil => simp at hlen
    | cons r rs1 =>
      have h0 := hpt 0 (by simp)
      have hrec := ih rs1 (by simpa using hlen) (fun i hi => hpt (i + 1) (by simpa using hi))
      cases r with
      | none =>
        have hm : isMissing (dictGet a m) = true := h0.1 rfl
        unfold collectRatings
        rw [if_pos hm, hrec]
        rfl
      | some w =>
        have hv : dictGet a m = u := h0.2 w rfl
        unfold collectRatings
        rw [hv, if_neg (by rw [humiss]; simp)]
        rw [show capFirstWord u = .ok (pyCapitalize u) by unfold capFirstWord; rw [hu]]
        rw [hrec]
        rfl

theorem filterMap_map_option (f : String → String) : ∀ (rs : List (Option String)),
    (rs.map (Option.map f)).filterMap id = (rs.filterMap id).map f := by
  intro rs
  induction rs with
  | nil => rfl
  | cons r rest ih => cases r <;> simp [ih]

theorem dedup_const (a : String) : ∀ (l : List String), l ≠ [] → (∀ x ∈ l, x = a) →
    l.dedup = [a] := by
  intro l
  induction l with
  | nil => intro h _; exact absurd rfl h
  | cons x rest ih =>
    intro _ hall
    have hx : x = a := hall x (List.mem_cons_self x rest)
    by_cases hr : rest = []
    · subst hr
      simp [hx]
    · have hrd : rest.dedup = [a] :=
        ih hr (fun z hz => hall z (List.mem_cons_of_mem x hz))
      have hmem : x ∈ rest := by
        obtain ⟨z, hz⟩ := List.exists_mem_of_ne_nil rest hr
        have hza : z = a := hall z (List.mem_cons_of_mem x hz)
        rw [hza, ← hx] at hz
        exact hz
      rw [List.dedup_cons_of_mem hmem, hrd]

theorem harmonizeStep_error (analyses : List Analysis) (m2 : String)
    (st : HarmonizeResult) (e : Unit) (h : harmonizeStep analyses m2 st = .error e) :
    collectRatings analyses m2 = .error e := by
  unfold harmonizeStep at h
  cases hc : collectRatings analyses m2 with
  | error e2 =>
    cases e
    cases e2
    rfl
  | ok rs =>
    rw [hc] at h
    dsimp only at h
    exfalso
    split_ifs at h

theorem harmonizeLoop_collect (analyses : List Analysis) :
    ∀ (ms : List String) (st out : HarmonizeResult),
      harmonizeLoop analyses ms st = .ok out →
      ∀ m2 ∈ ms, ∃ rs, collectRatings analyses m2 = .ok rs := by
  intro ms
  induction ms with
  | nil => intro st out _ m2 hm2; simp at hm2
  | cons m1 rest ih =>
    intro st out h m2 hm2
    unfold harmonizeLoop at h
    cases he : harmonizeStep analyses m1 st with
    | error e => rw [he] at h; exact absurd h (by simp)
    | ok st1 =>
      rw [he] at h
      rcases List.mem_cons.1 hm2 with rfl | hm2r
      · obtain ⟨rs, hrs, _⟩ := harmonizeStep_cases analyses m2 st st1 he
        exact ⟨rs, hrs⟩
      · exact ih st1 out h m2 hm2r

theorem harmonizeLoop_ok_of_collect (analyses : List Analysis) :
    ∀ (ms : List String) (st : HarmonizeResult),
      (∀ m2 ∈ ms, ∃ rs, collectRatings analyses m2 = .ok rs) →
      ∃ out, harmonizeLoop analyses ms st = .ok out := by
  intro ms
  induction ms with
  | nil => intro st _; exact ⟨st, rfl⟩
  | cons m1 rest ih =>
    intro st hcol
    cases he : harmonizeStep analyses m1 st with
    | error e =>
      obtain ⟨rs, hrs⟩ := hcol m1 (List.mem_cons_self m1 rest)
      rw [harmonizeStep_error analyses m1 st e he] at hrs
      exact absurd hrs (by simp)
    | ok st1 =>
      obtain ⟨out, hout⟩ := ih st1 (fun m2 hm2 => hcol m2 (List.mem_cons_of_mem m1 hm2))
      refine ⟨out, ?_⟩
      unfold harmonizeLoop
      rw [he]
      exact hout

theorem harmonizeLoop_log_metrics (analyses : List Analysis) :
    ∀ (ms : List String) (st out : HarmonizeResult),
      harmonizeLoop analyses ms st = .ok out →
      ∀ e ∈ out.harmonization_log, e ∈ st.harmonization_log ∨ e.metric ∈ ms := by
  intro ms
  induction ms with
  | nil =>
    intro st out h e he
    injection h with h
    rw [h]
    exact Or.inl he
  | cons m1 rest ih =>
    intro st out h e he
    unfold harmonizeLoop at h
    cases hes : harmonizeStep analyses m1 st with
    | error e2 => rw [hes] at h; exact absurd h (by simp)
    | ok st1 =>
      rw [hes] at h
      obtain ⟨_, ⟨e0, he0, hlog⟩, _⟩ := harmonizeStep_parts analyses m1 st st1 hes
      rcases ih st1 out h e he with h2 | h2
      · rw [hlog] at h2
        rcases List.mem_append.1 h2 with h3 | h3
        · exact Or.inl h3
        · rw [List.mem_singleton] at h3
          subst h3
          exact Or.inr (he0 ▸ List.mem_cons_self m1 rest)
      · exact Or.inr (List.mem_cons_of_mem m1 h2)

theorem collectRatings_ok_of_valOk (m : String) : ∀ (l : List Analysis),
    (∀ i, i < l.length → valOk (getAt l i m)) →
    ∃ rs, collectRatings l m = .ok rs := by
  intro l
  induction l with
  | nil => intro _; exact ⟨[], rfl⟩
  | cons a rest ih =>
    intro hv
    obtain ⟨rs1, hrs1⟩ := ih (fun i hi => hv (i + 1) (by simpa using hi))
    by_cases hm : isMissing (dictGet a m)
    · refine ⟨none :: rs1, ?_⟩
      unfold collectRatings
      rw [if_pos hm, hrs1]
      rfl
    · rcases hv 0 (by simp) with h0 | h0
      · exact absurd h0 (by simpa using hm)
      · cases hs : pySplit (dictGet a m) with
        | nil => exact absurd (show pySplit (getAt (a :: rest) 0 m) = [] from hs) h0
        | cons w0 ws =>
          refine ⟨some (pyCapitalize w0) :: rs1, ?_⟩
          unfold collectRatings
          rw [if_neg hm,
            show capFirstWord (dictGet a m) = .ok (pyCapitalize w0) by
              unfold capFirstWord; rw [hs],
            hrs1]
          rfl

/-- C4: running `harmonize_and_check_debates` a second time on its own
harmonized output yields action=already_aligned for every metric that was
harmonized in the first run: the second run completes, its only log entry
for such a metric has action already_aligned, the metric is not newly
flagged for debate, and its rating and rationale columns are not mutated
again. -/
theorem harmonize_idempotent (analyses : List Analysis) (out1 : HarmonizeResult)
    (m : String) (e : LogEntry)
    (hok : harmonize_and_check_debates analyses = .ok out1)
    (hin : e ∈ out1.harmonization_log) (hme : e.metric = m)
    (hact : e.action = "harmonized") :
    ∃ out2, harmonize_and_check_debates out1.harmonized_analyses = .ok out2 ∧
      (∃ e2 ∈ out2.harmonization_log, e2.metric = m ∧ e2.action = "already_aligned") ∧
      (∀ e2 ∈ out2.harmonization_log, e2.metric = m → e2.action = "already_aligned") ∧
      m ∉ out2.metrics_to_debate ∧
      mkeysEq out1.harmonized_analyses out2.harmonized_analyses m := by
  have hm : m ∈ METRICS := by
    rcases harmonizeLoop_log_metrics analyses METRICS ⟨analyses, [], []⟩ out1 hok e hin
      with h | h
    · simp at h
    · exact hme ▸ h
  obtain ⟨rs, hrs, hc⟩ := harmonizeLoop_target analyses m METRICS ⟨analyses, [], []⟩ out1
    hok hm metrics_nodup (fun m1 hm1 hne => metrics_keyDisj m hm m1 hm1 hne) rfl
    (fun i => ⟨rfl, rfl⟩) (by simp) (by simp)
  by_cases c1 : (rs.filterMap id).length < 2
  · exfalso
    have he2 := (hc.1 c1).2.2.2 e hin hme
    rw [he2] at hact
    simp at hact
  by_cases c2 : ((rs.filterMap id).map pyLower).dedup.length = 1
  · exfalso
    have he2 := (hc.2.1 c1 c2).2.2.2 e hin hme
    rw [he2] at hact
    simp at hact
  by_cases c3 : ((rs.filterMap id).map getTier).contains "neutral" = true
  · exfalso
    have he2 := (hc.2.2.1 c1 c2 c3).2.2.2 e hin hme
    rw [he2] at hact
    simp at hact
  have c3f : ((rs.filterMap id).map getTier).contains "neutral" = false :=
    Bool.eq_false_iff.2 c3
  by_cases c4 : (((rs.filterMap id).map getTier).contains "positive" &&
      ((rs.filterMap id).map getTier).contains "negative") = true
  · exfalso
    have he2 := (hc.2.2.2.1 c1 c2 c3f c4).2.2.2 e hin hme
    rw [he2] at hact
    simp at hact
  have c4f : (((rs.filterMap id).map getTier).contains "positive" &&
      ((rs.filterMap id).map getTier).contains "negative") = false :=
    Bool.eq_false_iff.2 c4
  obtain ⟨hdeb1, hlo1, hhit, hmiss⟩ := hc.2.2.2.2 c1 c2 c3f c4f
  have hvne : rs.filterMap id ≠ [] := by
    intro hnil
    rw [hnil] at c1
    simp at c1
  obtain ⟨u, hu_eq, hu_ne, hu_ws, hu_split, hu_miss⟩ :=
    get_majority_shape (rs.filterMap id) hvne (collectRatings_entries m analyses rs hrs)
  have hu_getD : (get_majority (rs.filterMap id)).getD "" = u := by rw [hu_eq]; rfl
  have hrslen : rs.length = analyses.length := collectRatings_length m analyses rs hrs
  have hlen1 : out1.harmonized_analyses.length = analyses.length :=
    harmonizeLoop_length analyses METRICS ⟨analyses, [], []⟩ out1 hok
  have hpt : ∀ i, i < out1.harmonized_analyses.length →
      (rs.get? i = some none → isMissing (getAt out1.harmonized_analyses i m) = true) ∧
      (∀ w, rs.get? i = some (some w) → getAt out1.harmonized_analyses i m = u) := by
    intro i hi
    constructor
    · intro hni
      rw [(hmiss i (Or.inl hni)).1]
      exact (collectRatings_idx m analyses rs hrs i (by omega)).1 hni
    · intro w hw
      rw [(hhit i w hw).1, hu_getD]
  have hcol2 : collectRatings out1.harmonized_analyses m
      = .ok (rs.map (Option.map (fun _ => pyCapitalize u))) :=
    collectRatings_of_pointwise m u hu_split hu_miss out1.harmonized_analyses rs
      (by omega) hpt
  have hcols : ∀ m2 ∈ METRICS, ∃ rs2,
      collectRatings out1.harmonized_analyses m2 = .ok rs2 := by
    intro m2 hm2
    obtain ⟨rsB, hrsB, hcB⟩ := harmonizeLoop_target analyses m2 METRICS ⟨analyses, [], []⟩
      out1 hok hm2 metrics_nodup (fun m1 hm1 hne => metrics_keyDisj m2 hm2 m1 hm1 hne) rfl
      (fun i => ⟨rfl, rfl⟩) (by simp) (by simp)
    have hrsBlen : rsB.length = analyses.length := collectRatings_length m2 analyses rsB hrsB
    have hvalok : ∀ i, i < out1.harmonized_analyses.length →
        valOk (getAt out1.harmonized_analyses i m2) := by
      intro i hi
      have hio : i < analyses.length := by omega
      by_cases d1 : (rsB.filterMap id).length < 2
      · rw [((hcB.1 d1).1 i).1]
        exact collectRatings_valOk m2 analyses rsB hrsB i hio
      by_cases d2 : ((rsB.filterMap id).map pyLower).dedup.length = 1
      · rw [((hcB.2.1 d1 d2).1 i).1]
        exact collectRatings_valOk m2 analyses rsB hrsB i hio
      by_cases d3 : ((rsB.filterMap id).map getTier).contains "neutral" = true
      · rw [((hcB.2.2.1 d1 d2 d3).1 i).1]
        exact collectRatings_valOk m2 analyses rsB hrsB i hio
      have d3f : ((rsB.filterMap id).map getTier).contains "neutral" = false :=
        Bool.eq_false_iff.2 d3
      by_cases d4 : (((rsB.filterMap id).map getTier).contains "positive" &&
          ((rsB.filterMap id).map getTier).contains "negative") = true
      · rw [((hcB.2.2.2.1 d1 d2 d3f d4).1 i).1]
        exact collectRatings_valOk m2 analyses rsB hrsB i hio
      have d4f : (((rsB.filterMap id).map getTier).contains "positive" &&
          ((rsB.filterMap id).map getTier).contains "negative") = false :=
        Bool.eq_false_iff.2 d4
      obtain ⟨_, _, hhitB, hmissB⟩ := hcB.2.2.2.2 d1 d2 d3f d4f
      cases hg : rsB.get? i with
      | none =>
        rw [(hmissB i (Or.inr hg)).1]
        exact collectRatings_valOk m2 analyses rsB hrsB i hio
      | some o =>
        cases o with
        | none =>
          rw [(hmissB i (Or.inl hg)).1]
          exact collectRatings_valOk m2 analyses rsB hrsB i hio
        | some w =>
          rw [(hhitB i w hg).1]
          have hvneB : rsB.filterMap id ≠ [] := by
            intro hnil
            rw [hnil] at d1
            simp at d1
          obtain ⟨uB, huB_eq, huB_ne, huB_ws, huB_split, huB_miss⟩ :=
            get_majority_shape (rsB.filterMap id) hvneB
              (collectRatings_entries m2 analyses rsB hrsB)
          rw [huB_eq]
          right
          show pySplit uB ≠ []
          rw [huB_split]
          simp
    exact collectRatings_ok_of_valOk m2 out1.harmonized_analyses hvalok
  obtain ⟨out2, hout2⟩ := harmonizeLoop_ok_of_collect out1.harmonized_analyses METRICS
    ⟨out1.harmonized_analyses, [], []⟩ hcols
  obtain ⟨rs2X, hrs2X, hc2⟩ := harmonizeLoop_target out1.harmonized_analyses m METRICS
    ⟨out1.harmonized_analyses, [], []⟩ out2 hout2 hm metrics_nodup
    (fun m1 hm1 hne => metrics_keyDisj m hm m1 hm1 hne) rfl (fun i => ⟨rfl, rfl⟩)
    (by simp) (by simp)
  rw [hcol2] at hrs2X
  injection hrs2X with hrs2X
  subst hrs2X
  have hfm2 : (rs.map (Option.map (fun _ => pyCapitalize u))).filterMap id
      = (rs.filterMap id).map (fun _ => pyCapitalize u) :=
    filterMap_map_option (fun _ => pyCapitalize u) rs
  have hlen2 : ¬((rs.map (Option.map (fun _ => pyCapitalize u))).filterMap id).length < 2 := by
    rw [hfm2, List.length_map]
    exact c1
  have hded2 : (((rs.map (Option.map (fun _ => pyCapitalize u))).filterMap id).map
      pyLower).dedup.length = 1 := by
    rw [hfm2, List.map_map]
    have hconst : ∀ x ∈ (rs.filterMap id).map (pyLower ∘ fun _ => pyCapitalize u),
        x = pyLower (pyCapitalize u) := by
      intro x hx
      rw [List.mem_map] at hx
      obtain ⟨y, _, hy⟩ := hx
      rw [← hy]
      rfl
    have hne2 : (rs.filterMap id).map (pyLower ∘ fun _ => pyCapitalize u) ≠ [] := by
      intro hnil
      rw [List.map_eq_nil_iff] at hnil
      exact hvne hnil
    rw [dedup_const (pyLower (pyCapitalize u)) _ hne2 hconst]
    rfl
  obtain ⟨hmk2, hdeb2, hlo2⟩ := hc2.2.1 hlen2 hded2
  refine ⟨out2, hout2, ⟨_, hlo2.1, rfl, rfl⟩, ?_, hdeb2, hmk2⟩
  intro e2 he2 hm2e
  rw [hlo2.2 e2 he2 hm2e]

/-- Witness for C4 at a concrete harmonized run: revenue was harmonized to
"Good" in run 1, and the second run reports it already aligned. -/
theorem harmonize_idempotent_witness :
    ∃ out2, harmonize_and_check_debates
        (⟨[[("revenue", "Good"), ("revenue_reason", "r1 [Harmonized to Good]")],
           [("revenue", "Good"), ("revenue_reason", "r2 [Harmonized to Good]")],
           [("revenue", "Good")]],
          [],
          [⟨"revenue", "harmonized", none, none, some "Good",
              some [some "Good", some "Excellent", some "Good"]⟩,
           ⟨"net_income", "skipped", some "insufficient_data",
              some [none, none, none], none, none⟩,
           ⟨"gross_margin", "skipped", some "insufficient_data",
              some [none, none, none], none, none⟩,
           ⟨"operational_costs", "skipped", some "insufficient_data",
              some [none, none, none], none, none⟩,
           ⟨"cash_flow", "skipped", some "insufficient_data",
              some [none, none, none], none, none⟩,
           ⟨"quaterly_growth", "skipped", some "insufficient_data",
              some [none, none, none], none, none⟩,
           ⟨"total_assets", "skipped", some "insufficient_data",
              some [none, none, none], none, none⟩,
           ⟨"total_debt", "skipped", some "insufficient_data",
              some [none, none, none], none, none⟩]⟩
          : HarmonizeResult).harmonized_analyses = .ok out2 ∧
      (∃ e2 ∈ out2.harmonization_log, e2.metric = "revenue" ∧
        e2.action = "already_aligned") ∧
      (∀ e2 ∈ out2.harmonization_log, e2.metric = "revenue" →
        e2.action = "already_aligned") ∧
      "revenue" ∉ out2.metrics_to_debate ∧
      mkeysEq (⟨[[("revenue", "Good"), ("revenue_reason", "r1 [Harmonized to Good]")],
           [("revenue", "Good"), ("revenue_reason", "r2 [Harmonized to Good]")],
           [("revenue", "Good")]],
          [],
          [⟨"revenue", "harmonized", none, none, some "Good",
              some [some "Good", some "Excellent", some "Good"]⟩,
           ⟨"net_income", "skipped", some "insufficient_data",
              some [none, none, none], none, none⟩,
           ⟨"gross_margin", "skipped", some "insufficient_data",
              some [none, none, none], none, none⟩,
           ⟨"operational_costs", "skipped", some "insufficient_data",
              some [none, none, none], none, none⟩,
           ⟨"cash_flow", "skipped", some "insufficient_data",
              some [none, none, none], none, none⟩,
           ⟨"quaterly_growth", "skipped", some "insufficient_data",
              some [none, none, none], none, none⟩,
           ⟨"total_assets", "skipped", some "insufficient_data",
              some [none, none, none], none, none⟩,
           ⟨"total_debt", "skipped", some "insufficient_data",
              some [none, none, none], none, none⟩]⟩
          : HarmonizeResult).harmonized_analyses out2.harmonized_analyses "revenue" :=
  harmonize_idempotent
    [[("revenue", "Good"), ("revenue_reason", "r1")],
     [("revenue", "Excellent"), ("revenue_reason", "r2")],
     [("revenue", "Good")]]
    ⟨[[("revenue", "Good"), ("revenue_reason", "r1 [Harmonized to Good]")],
      [("revenue", "Good"), ("revenue_reason", "r2 [Harmonized to Good]")],
      [("revenue", "Good")]],
     [],
     [⟨"revenue", "harmonized", none, none, some "Good",
         some [some "Good", some "Excellent", some "Good"]⟩,
      ⟨"net_income", "skipped", some "insufficient_data",
         some [none, none, none], none, none⟩,
      ⟨"gross_margin", "skipped", some "insufficient_data",
         some [none, none, none], none, none⟩,
      ⟨"operational_costs", "skipped", some "insufficient_data",
         some [none, none, none], none, none⟩,
      ⟨"cash_flow", "skipped", some "insufficient_data",
         some [none, none, none], none, none⟩,
      ⟨"quaterly_growth", "skipped", some "insufficient_data",
         some [none, none, none], none, none⟩,
      ⟨"total_assets", "skipped", some "insufficient_data",
         some [none, none, none], none, none⟩,
      ⟨"total_debt", "skipped", some "insufficient_data",
         some [none, none, none], none, none⟩]⟩
    "revenue"
    ⟨"revenue", "harmonized", none, none, some "Good",
        some [some "Good", some "Excellent", some "Good"]⟩
    (by rfl) (List.mem_cons_self _ _) rfl rfl


theorem readRef_append : ∀ (l1 l2 : List Analysis) (r : Nat), r < l1.length →
    readRef (l1 ++ l2) r = readRef l1 r := by
  intro l1
  induction l1 with
  | nil => intro l2 r h; simp at h
  | cons a rest ih =>
    intro l2 r h
    cases r with
    | zero => rfl
    | succ j => exact ih l2 j (by simpa using h)

theorem range1_length : ∀ (n s : Nat), (List.range' s n).length = n := by
  intro n
  induction n with
  | zero => intro s; rfl
  | succ k ih => intro s; simp only [List.range', List.length_cons, ih]

theorem mem_range1_ge : ∀ (n s m : Nat), m ∈ List.range' s n → s ≤ m := by
  intro n
  induction n with
  | zero => intro s m h; simp [List.range'] at h
  | succ k ih =>
    intro s m h
    rw [show List.range' s (k + 1) = s :: List.range' (s + 1) k from rfl] at h
    rcases List.mem_cons.1 h with h1 | h2
    · omega
    · exact Nat.le_of_succ_le (ih (s + 1) m h2)

theorem getD_mem_of_lt : ∀ (l : List Nat) (i : Nat), i < l.length → l.getD i 0 ∈ l := by
  intro l
  induction l with
  | nil => intro i h; simp at h
  | cons a rest ih =>
    intro i h
    cases i with
    | zero => exact List.mem_cons_self a rest
    | succ j =>
      exact List.mem_cons_of_mem a (ih j (by simpa using h))

theorem fillDecision_idx_lt (analyses : List Analysis) (m : String) (idx : Nat) (v : String)
    (h : fillDecision analyses m = .ok (some (idx, v))) : idx < analyses.length := by
  unfold fillDecision at h
  cases hc : collectRatings analyses m with
  | error e => rw [hc] at h; exact absurd h (by simp)
  | ok rs =>
    rw [hc] at h
    dsimp only at h
    by_cases h1 : (noneIndices rs).length ≠ 1
    · rw [if_pos h1] at h
      exact absurd h (by simp)
    · rw [if_neg h1] at h
      obtain ⟨j, hj⟩ := List.length_eq_one.1 (not_not.1 h1)
      cases hfm : rs.filterMap id with
      | nil => rw [hfm] at h; exact absurd h (by simp)
      | cons v0 rest =>
        rw [hfm] at h
        dsimp only at h
        by_cases hall : (rest.all fun x => decide (x = v0)) = true
        · rw [if_pos hall] at h
          injection h with h
          injection h with h
          have hidx : (noneIndices rs).headD 0 = idx := congrArg Prod.fst h
          have hji : j = idx := by rw [← hidx, hj]; rfl
          have hjm : j ∈ noneIndices rs := by rw [hj]; exact List.mem_cons_self j []
          have hjlt : j < rs.length := noneIndices_lt rs j hjm
          rw [collectRatings_length m analyses rs hc] at hjlt
          omega
        · rw [if_neg hall] at h
          exact absurd h (by simp)

theorem readRef_applyHarmonizeHeap (m maj : String) :
    ∀ (rs : List (Option String)) (refs : List Nat) (heap : Heap) (r : Nat),
      r ∉ refs →
      readRef (applyHarmonizeHeap m maj rs refs heap) r = readRef heap r := by
  intro rs
  induction rs with
  | nil =>
    intro refs heap r _
    cases refs <;> rfl
  | cons o rest ih =>
    intro refs heap r hr
    cases refs with
    | nil => cases o <;> rfl
    | cons r0 refs1 =>
      have hr1 : r ∉ refs1 := fun h => hr (List.mem_cons_of_mem r0 h)
      have hr0 : r ≠ r0 := fun h => hr (h ▸ List.mem_cons_self r0 refs1)
      cases o with
      | none => exact ih refs1 heap r hr1
      | some w =>
        show readRef (applyHarmonizeHeap m maj rest refs1
            (writeRef heap r0 (updateOne (readRef heap r0) m maj))) r = readRef heap r
        rw [ih refs1 _ r hr1, readRef_writeRef_ne heap r0 r _ (fun h => hr0 h.symm)]

theorem harmonizeLoopHeap_frame (inRefs outRefs : List Nat) :
    ∀ (ms : List String) (heap h2 : Heap),
      harmonizeLoopHeap inRefs outRefs ms heap = .ok h2 →
      ∀ r, r ∉ outRefs → readRef h2 r = readRef heap r := by
  intro ms
  induction ms with
  | nil =>
    intro heap h2 h r _
    injection h with h
    rw [h]
  | cons m1 rest ih =>
    intro heap h2 h r hr
    unfold harmonizeLoopHeap at h
    cases hc : collectRatings (readAnalyses heap inRefs) m1 with
    | error e => rw [hc] at h; exact absurd h (by simp)
    | ok ratings =>
      rw [hc] at h
      dsimp only at h
      split_ifs at h with c1 c2 c3 c4
      · exact ih heap h2 h r hr
      · exact ih heap h2 h r hr
      · exact ih heap h2 h r hr
      · exact ih heap h2 h r hr
      · rw [ih _ h2 h r hr,
          readRef_applyHarmonizeHeap m1 _ ratings outRefs heap r hr]

theorem fillLoopHeap_frame (inRefs outRefs : List Nat) (hlen : inRefs.length ≤ outRefs.length) :
    ∀ (ms : List String) (heap h2 : Heap),
      fillLoopHeap inRefs outRefs ms heap = .ok h2 →
      ∀ r, r ∉ outRefs → readRef h2 r = readRef heap r := by
  intro ms
  induction ms with
  | nil =>
    intro heap h2 h r _
    injection h with h
    rw [h]
  | cons m1 rest ih =>
    intro heap h2 h r hr
    unfold fillLoopHeap at h
    cases hc : fillDecision (readAnalyses heap inRefs) m1 with
    | error e => rw [hc] at h; exact absurd h (by simp)
    | ok o =>
      rw [hc] at h
      cases o with
      | none => exact ih heap h2 h r hr
      | some p =>
        obtain ⟨idx, v⟩ := p
        have hidx : idx < (readAnalyses heap inRefs).length :=
          fillDecision_idx_lt _ m1 idx v hc
        have hidx2 : idx < outRefs.length := by
          rw [show (readAnalyses heap inRefs).length = inRefs.length by
            simp [readAnalyses]] at hidx
          omega
        have hne : outRefs.getD idx 0 ≠ r :=
          fun hh => hr (hh ▸ getD_mem_of_lt outRefs idx hidx2)
        rw [ih _ h2 h r hr]
        show readRef (applyFillHeap heap outRefs idx m1 v) r = readRef heap r
        unfold applyFillHeap
        exact readRef_writeRef_ne heap _ r _ hne

/-- C9: in the heap model, `fill_missing_with_consensus` and
`harmonize_and_check_debates` leave every input analysis dict unchanged:
both deep-copy the inputs to fresh addresses and write only through the
copy's addresses, so when either call returns, reading any input address
yields exactly the fields and values it held before the call. -/
theorem fill_and_harmonize_frame (heap : Heap) (inRefs : List Nat)
    (hf2 hh2 : Heap) (oF oH : List Nat)
    (hwf : ∀ r ∈ inRefs, r < heap.length)
    (hfill : fill_missing_heap heap inRefs = .ok (hf2, oF))
    (hharm : harmonize_heap heap inRefs = .ok (hh2, oH)) :
    ∀ r ∈ inRefs, readRef hf2 r = readRef heap r ∧ readRef hh2 r = readRef heap r := by
  intro r hrmem
  have hrlt : r < heap.length := hwf r hrmem
  have hnot : r ∉ List.range' heap.length inRefs.length := by
    intro hmem
    exact absurd (mem_range1_ge inRefs.length heap.length r hmem) (by omega)
  have happ : readRef (heap ++ readAnalyses heap inRefs) r = readRef heap r :=
    readRef_append heap (readAnalyses heap inRefs) r hrlt
  have hle : inRefs.length ≤ (List.range' heap.length inRefs.length).length := by
    rw [range1_length]
  constructor
  · unfold fill_missing_heap at hfill
    dsimp only at hfill
    cases hfl : fillLoopHeap inRefs (List.range' heap.length inRefs.length) METRICS
        (heap ++ readAnalyses heap inRefs) with
    | error e => rw [hfl] at hfill; exact absurd hfill (by simp [Except.map])
    | ok hX =>
      rw [hfl] at hfill
      simp only [Except.map] at hfill
      injection hfill with hfill
      have h1 : hX = hf2 := congrArg Prod.fst hfill
      subst h1
      exact (fillLoopHeap_frame inRefs _ hle METRICS _ hX hfl r hnot).trans happ
  · unfold harmonize_heap at hharm
    dsimp only at hharm
    cases hhl : harmonizeLoopHeap inRefs (List.range' heap.length inRefs.length) METRICS
        (heap ++ readAnalyses heap inRefs) with
    | error e => rw [hhl] at hharm; exact absurd hharm (by simp [Except.map])
    | ok hY =>
      rw [hhl] at hharm
      simp only [Except.map] at hharm
      injection hharm with hharm
      have h1 : hY = hh2 := congrArg Prod.fst hharm
      subst h1
      exact (harmonizeLoopHeap_frame inRefs _ METRICS _ hY hhl r hnot).trans happ

/-- Witness for C9: three input dicts at addresses 0‒2; the fill run writes
the consensus value only at copy address 4, the harmonize run changes
nothing, and all three input addresses read back unchanged after both. -/
theorem fill_and_harmonize_frame_witness :
    (∀ r ∈ [0, 1, 2],
      r < ([[("revenue", "Good")], [("revenue", "")], [("revenue", "Good")]] : Heap).length) ∧
    fill_missing_heap [[("revenue", "Good")], [("revenue", "")], [("revenue", "Good")]] [0, 1, 2]
      = .ok ([[("revenue", "Good")], [("revenue", "")], [("revenue", "Good")],
              [("revenue", "Good")],
              [("revenue", "Good"), ("revenue_reason", "Filled by consensus (Good)")],
              [("revenue", "Good")]], [3, 4, 5]) ∧
    harmonize_heap [[("revenue", "Good")], [("revenue", "")], [("revenue", "Good")]] [0, 1, 2]
      = .ok ([[("revenue", "Good")], [("revenue", "")], [("revenue", "Good")],
              [("revenue", "Good")], [("revenue", "")], [("revenue", "Good")]], [3, 4, 5]) ∧
    ∀ r ∈ [0, 1, 2],
      readRef [[("revenue", "Good")], [("revenue", "")], [("revenue", "Good")],
              [("revenue", "Good")],
              [("revenue", "Good"), ("revenue_reason", "Filled by consensus (Good)")],
              [("revenue", "Good")]] r
        = readRef [[("revenue", "Good")], [("revenue", "")], [("revenue", "Good")]] r ∧
      readRef [[("revenue", "Good")], [("revenue", "")], [("revenue", "Good")],
              [("revenue", "Good")], [("revenue", "")], [("revenue", "Good")]] r
        = readRef [[("revenue", "Good")], [("revenue", "")], [("revenue", "Good")]] r :=
  ⟨by decide, rfl, rfl,
    fill_and_harmonize_frame
      [[("revenue", "Good")], [("revenue", "")], [("revenue", "Good")]]
      [0, 1, 2]
      [[("revenue", "Good")], [("revenue", "")], [("revenue", "Good")],
       [("revenue", "Good")],
       [("revenue", "Good"), ("revenue_reason", "Filled by consensus (Good)")],
       [("revenue", "Good")]]
      [[("revenue", "Good")], [("revenue", "")], [("revenue", "Good")],
       [("revenue", "Good")], [("revenue", "")], [("revenue", "Good")]]
      [3, 4, 5] [3, 4, 5]
      (by decide) rfl rfl⟩

end StockCounsel
